import Mathlib

/-!
# Alesis MultiMix 8 USB 2.0 JACK bridge: integer-level model of `alesis_jackd_plugin.c`

The development embeds the completion callbacks `cb_out`, `fb_in`, `bulk_in` and the
host callback `jack_process` of `src/alesis_jackd_plugin.c` as Lean functions and proves
properties of them.

Conventions.
* The target is LP64 Linux: `int` and `unsigned int` are 32 bits wide, `long` and
  `size_t` are 64 bits wide.  Machine integers are `Int`/`Nat` with explicit wrapping.
* A byte is a `Nat`; a read through `unsigned char` reduces it modulo 256.
* Floating point is not modelled.  Where the source converts a float to an `int`
  (`cb_out`) the conversion is a parameter; where it compares the float average
  `ibavg` (`jack_process`) the two comparison outcomes are parameters.  A float that is
  only copied is its four bytes.
* The JACK ring buffer is an external library.  A ring is modelled by the list of the
  bytes currently readable from it (oldest first); `jack_ringbuffer_read` and
  `jack_ringbuffer_write` transfer `min (requested, available)` bytes and return that
  count, as the library documents.
-/

namespace Alesis

/-! ## Machine integers -/

/-- Conversion to `int`: the value modulo `2^32`, read as two's complement. -/
def toInt32 (x : Int) : Int := (x + 2147483648) % 4294967296 - 2147483648

/-- Conversion to `unsigned int`: the value modulo `2^32`. -/
def toUInt32 (x : Int) : Int := x % 4294967296

/-- Conversion to `long`: the value modulo `2^64`, read as two's complement. -/
def toInt64 (x : Int) : Int :=
  (x + 9223372036854775808) % 18446744073709551616 - 9223372036854775808

/-- Conversion to `size_t` (`unsigned long`): the value modulo `2^64`. -/
def toSizeT (x : Int) : Int := x % 18446744073709551616

/-! ## Constants of the source -/

/-- Preprocessor constant `AVGSCALE`, 300. -/
def AVGSCALE : Int := 300
/-- Preprocessor constant `DEADBAND`, 48. -/
def DEADBAND : Int := 48
/-- Preprocessor constant `RB_TARGET_LENGTH`, 768. -/
def RB_TARGET_LENGTH : Int := 768
/-- Preprocessor constant `IB_TARGET_LENGTH`, 1536. -/
def IB_TARGET_LENGTH : Int := 1536
/-- Preprocessor constant `fbAdjust`, 3. -/
def fbAdjust : Int := 3
/-- Constant `sample_size = sizeof(jack_default_audio_sample_t)`: a JACK sample is a
32-bit float. -/
def sample_size : Int := 4
/-- Constant `ibframe = 10*sample_size`, a `size_t`. -/
def ibframe : Int := 10 * sample_size
/-- Constant `ibtlow = ibframe*(IB_TARGET_LENGTH-DEADBAND)`, a `size_t`. -/
def ibtlow : Int := ibframe * (IB_TARGET_LENGTH - DEADBAND)
/-- Constant `ibthigh = ibframe*(IB_TARGET_LENGTH+DEADBAND)`, a `size_t`. -/
def ibthigh : Int := ibframe * (IB_TARGET_LENGTH + DEADBAND)
/-- Constant `rbframe = 2*sample_size`, a `size_t`. -/
def rbframe : Int := 2 * sample_size
/-- Constant `rbtlow = rbframe*(RB_TARGET_LENGTH-DEADBAND)`, a `size_t`. -/
def rbtlow : Int := rbframe * (RB_TARGET_LENGTH - DEADBAND)
/-- Constant `rbthigh = rbframe*(RB_TARGET_LENGTH+DEADBAND)`, a `size_t`. -/
def rbthigh : Int := rbframe * (RB_TARGET_LENGTH + DEADBAND)

/-! ## JACK ring buffer (external library) -/

/-- A ring buffer, as the list of bytes readable from it, oldest first. -/
abbrev Ring := List Nat

/-- Function `jack_ringbuffer_read_space`: number of bytes available for reading. -/
def jack_ringbuffer_read_space (r : Ring) : Int := (r.length : Int)

/-- Function `jack_ringbuffer_read (r, dest, cnt)`: the bytes copied to `dest` and the ring
afterwards.  At most the readable bytes are copied. -/
def jack_ringbuffer_read (r : Ring) (cnt : Int) : List Nat × Ring :=
  (r.take cnt.toNat, r.drop cnt.toNat)

/-- Return value of `jack_ringbuffer_write (r, src, cnt)` when `ws` bytes are free:
the number of bytes written, `min (cnt, ws)`; `cnt` is a `size_t`. -/
def jack_ringbuffer_write (ws : Int) (cnt : Int) : Int :=
  if toSizeT cnt > ws then ws else toSizeT cnt

/-! ## libusb transfers (external library) -/

/-- The enumeration `libusb_transfer_status`. -/
inductive TransferStatus where
  | completed | error | timedOut | cancelled | stall | noDevice | overflow
  deriving DecidableEq, Repr

/-- The fields of `struct libusb_transfer` the callbacks touch. -/
structure Transfer where
  /-- Field `status`. -/
  status : TransferStatus
  /-- Field `length`, an `int`. -/
  length : Int
  /-- Field `iso_packet_desc[i].length` for each packet, an `unsigned int`. -/
  packets : List Int
  /-- Field `buffer`, the payload bytes. -/
  buffer : List Nat
  deriving DecidableEq, Repr

/-- The playback transfers as `run_audio` arms them: `calloc(2886,1)`,
`libusb_fill_iso_transfer (.., 2880, 40, ..)`, `libusb_set_iso_packet_lengths (.., 72)`. -/
def outTransferInit : Transfer :=
  { status := TransferStatus.completed
    length := 2880
    packets := List.replicate 40 72
    buffer := List.replicate 2886 0 }

/-! ## `cb_out`: playback completion callback -/

/-- Function `memset (buf, 0, n)`. -/
def memsetZero (buf : List Nat) (n : Int) : List Nat :=
  List.replicate n.toNat 0 ++ buf.drop n.toNat

/-- Storing the bytes `bs` from the start of `buf` (the writes through `bp`). -/
def storeBytes (buf : List Nat) (bs : List Nat) : List Nat :=
  bs ++ buf.drop bs.length

/-- The loop `for(b=0;b<3;b++) { sample >>= 8; *bp = sample&0xff; bp++; }` with `n`
iterations left: the bytes stored, in order.  `>>` on a negative `int` is the
arithmetic shift; `& 0xff` is the residue modulo 256. -/
def encodeLoop : Nat → Int → List Nat
  | 0, _ => []
  | n + 1, sample =>
    let sample1 := sample >>> (8 : Nat)
    (sample1 % 256).toNat :: encodeLoop n sample1

/-- The three bytes `cb_out` stores for the `int sample`. -/
def encodeSample (sample : Int) : List Nat := encodeLoop 3 sample

/-- The four bytes of float number `k` of the scratch array `ab`. -/
def floatAt (ab : List Nat) (k : Nat) : List Nat := (ab.drop (4 * k)).take 4

/-- The loop `for(ch=0;ch<2;ch++)` of `cb_out` for the frame at float index `p`. -/
def transcodeFrame (scale : List Nat → Int) (ab : List Nat) (p : Nat) : List Nat :=
  encodeSample (scale (floatAt ab p)) ++ encodeSample (scale (floatAt ab (p + 1)))

/-- The loop `for(i=0;i<480+sd;i++)` of `cb_out` with `n` frames left and `pab` at
float index `p`: the bytes stored through `bp`, in order. -/
def transcodeLoop (scale : List Nat → Int) (ab : List Nat) : Nat → Nat → List Nat
  | 0, _ => []
  | n + 1, p => transcodeFrame scale ab p ++ transcodeLoop scale ab n (p + 2)

/-- The state `cb_out` reads and writes. -/
structure OutState where
  /-- Global `outDelta`, the feedback accumulator. -/
  outDelta : Int
  /-- The playback ring `rb`. -/
  rb : Ring
  /-- The transfer handed to the callback. -/
  transfer : Transfer
  deriving DecidableEq, Repr

/-- The `-1/0/+1` value `cb_out` derives from `outDelta`:
`int sd = outDelta/fbAdjust; sd = (sd > 0) - (sd < 0);`. -/
def cbOutSd (outDelta : Int) : Int :=
  let sd := Int.tdiv outDelta fbAdjust
  (if sd > 0 then 1 else 0) - (if sd < 0 then 1 else 0)

/-- The callback `cb_out`.  `scale` is the conversion `(int)(x*(float)INT_MAX)` of the
float stored in four bytes. -/
def cb_out (scale : List Nat → Int) (s : OutState) : OutState :=
  if s.transfer.status ≠ TransferStatus.cancelled then
    let sd := cbOutSd s.outDelta
    let outDelta1 := if sd ≠ 0 then 0 else s.outDelta
    let nr := toInt32 (toSizeT (rbframe * toSizeT (480 + sd)))
    let length1 := 2880 + sd * 6
    let packets1 := s.transfer.packets.set 39 (toUInt32 (72 + sd * 6))
    let nb := toInt32 (jack_ringbuffer_read_space s.rb)
    let buffer1 := if nb < nr then memsetZero s.transfer.buffer length1 else s.transfer.buffer
    let na := if nb < nr then 0 else nr
    if na > 0 then
      let rd := jack_ringbuffer_read s.rb na
      let ab := rd.1
      { outDelta := outDelta1
        rb := rd.2
        transfer :=
          { status := s.transfer.status
            length := length1
            packets := packets1
            buffer := storeBytes buffer1 (transcodeLoop scale ab (480 + sd).toNat 0) } }
    else
      { outDelta := outDelta1
        rb := s.rb
        transfer :=
          { status := s.transfer.status
            length := length1
            packets := packets1
            buffer := buffer1 } }
  else s

/-! ## `fb_in`: feedback completion callback -/

/-- The value `(unsigned int)buffer[i]` of byte `i` of an `unsigned char` buffer. -/
def byteAt (buffer : List Nat) (i : Nat) : Int := ((buffer.getD i 0 % 256 : Nat) : Int)

/-- The loop `for(i=0;i<6;i++) fSum += (unsigned int)transfer->buffer[i];` with `n`
iterations left at index `i`; `fSum` is an `unsigned int`. -/
def fbSumLoop (buffer : List Nat) : Nat → Nat → Int → Int
  | 0, _, fSum => fSum
  | n + 1, i, fSum => fbSumLoop buffer n (i + 1) (toUInt32 (fSum + byteAt buffer i))

/-- The callback `fb_in`: the value of `outDelta` after the call.  In
`outDelta += fSum-576` the subtraction and the addition are done in `unsigned int`
and the result is converted back to `int`. -/
def fb_in (outDelta : Int) (t : Transfer) : Int :=
  if t.status ≠ TransferStatus.cancelled then
    let fSum := fbSumLoop t.buffer 6 0 0
    toInt32 (toUInt32 (toUInt32 outDelta + toUInt32 (fSum - 576)))
  else outDelta

/-! ## `bulk_in`: capture completion callback -/

/-- The loop `for(ch=0;ch<5;ch++) { sample[ch] <<= 1; sample[ch] |= 0x01&bb; bb >>= 1; }`
with `n` iterations left at channel `ch`.  Each `int sample[ch]` is held as its 32-bit
pattern. -/
def rowChLoop : Nat → Nat → List Nat → Nat → List Nat
  | 0, _, sample, _ => sample
  | n + 1, ch, sample, bb =>
    let shifted := (sample.getD ch 0 <<< 1) % 4294967296
    rowChLoop n (ch + 1) (sample.set ch (shifted ||| (1 &&& bb))) (bb >>> 1)

/-- The loop `for(b=0;b<24;b++) { unsigned char bb = *bpos; ...; bpos++; }` with `n`
iterations left: the array `sample` and the position `bpos` afterwards. -/
def rowByteLoop (buffer : List Nat) : Nat → Nat → List Nat → List Nat × Nat
  | 0, bpos, sample => (sample, bpos)
  | n + 1, bpos, sample =>
    rowByteLoop buffer n (bpos + 1) (rowChLoop 5 0 sample (buffer.getD bpos 0 % 256))

/-- The `int` value of `sample[s]<<8` for the 32-bit pattern `v` of `sample[s]`. -/
def shl8 (v : Nat) : Int := toInt32 (((v <<< 8) % 4294967296 : Nat) : Int)

/-- The loop `for(s=0;s<5;s++) { *ap = (sample[s]<<8)/(float)INT_MAX; ap++; }` with `n`
iterations left at index `s`: the integers `sample[s]<<8`, each of which the source
divides by `(float)INT_MAX` to form the float it stores. -/
def rowConvLoop (sample : List Nat) : Nat → Nat → List Int
  | 0, _ => []
  | n + 1, s => shl8 (sample.getD s 0) :: rowConvLoop sample n (s + 1)

/-- The loop `for(row=0;row<nr;row++)` of `bulk_in` with `n` rows left and the input
position at `bpos`: the integers behind the floats stored through `ap`, in order. -/
def rowLoop (buffer : List Nat) : Nat → Nat → List Int
  | 0, _ => []
  | n + 1, bpos =>
    let r := rowByteLoop buffer 24 bpos [0, 0, 0, 0, 0]
    rowConvLoop r.1 5 0 ++ rowLoop buffer n (r.2 + 8)

/-- The number of rows `bulk_in` processes when `ws` bytes are free in IB:
`int nr = (jack_ringbuffer_write_space(ib) / ibframe)*2; if (nr<4096) {..} else nr=4096;`. -/
def bulkRows (ws : Int) : Int :=
  let nr := toInt32 (toSizeT (ws / ibframe * 2))
  if nr < 4096 then nr else 4096

/-- What one call of `bulk_in` does. -/
structure BulkResult where
  /-- The number of rows processed. -/
  rows : Int
  /-- The integers behind the floats of the scratch array `a`. -/
  a : List Int
  /-- The byte count `5*nr*sample_size` handed to `jack_ringbuffer_write`. -/
  requested : Int
  /-- The byte count `jack_ringbuffer_write` returns. -/
  written : Int
  /-- Global `done` afterwards. -/
  done : Int
  deriving DecidableEq, Repr

/-- The callback `bulk_in` with `ws` bytes free in IB.  A transfer is processed only
when its status is `LIBUSB_TRANSFER_COMPLETED` (`r==0` and not cancelled). -/
def bulk_in (done : Int) (ws : Int) (t : Transfer) : BulkResult :=
  let r : Int := if t.status ≠ TransferStatus.completed then 1 else 0
  if t.status ≠ TransferStatus.cancelled ∧ r = 0 then
    let nr := bulkRows ws
    let requested := toSizeT (toSizeT (5 * nr) * sample_size)
    let written := jack_ringbuffer_write ws requested
    { rows := nr
      a := rowLoop t.buffer nr.toNat 0
      requested := requested
      written := written
      done := if written < requested then 1 else done }
  else
    { rows := 0, a := [], requested := 0, written := 0, done := done }

/-! ## `jack_process`: host period callback (byte counts and control state) -/

/-- The loop `while(na<nr) { ..; na+=sample_size; ibadd++; }` with fuel `f`: the values
of `na` and `ibadd` afterwards. -/
def dupLoop : Nat → Int → Int → Int → Int × Int
  | 0, na, _, ibadd => (na, ibadd)
  | f + 1, na, nr, ibadd =>
    if na < nr then
      dupLoop f (toInt32 (toSizeT (toSizeT na + sample_size))) nr (toInt64 (ibadd + 1))
    else (na, ibadd)

/-- How `jack_process` changes the float `ibavg`. -/
inductive IbAvgUpdate where
  /-- Assignment `ibavg = nb;`. -/
  | reset (nb : Int)
  /-- Assignment `ibavg += term-(ibavg/AVGSCALE);` where `term` is the `size_t` value of
  `(nb-nr-jack_frames_since_cycle_start(client)*ibframe)/AVGSCALE`. -/
  | ewma (term : Int)
  /-- The variable `ibavg` is not assigned. -/
  | keep
  deriving DecidableEq, Repr

/-- What `jack_process` reads. -/
structure ProcIn where
  /-- Global `running`. -/
  running : Int
  /-- Argument `nframes`, a `jack_nframes_t` (32 bits, unsigned). -/
  nframes : Int
  /-- The capture ring `ib`. -/
  ib : Ring
  /-- Value of `jack_frames_since_cycle_start` in the IB update. -/
  ibElapsed : Int
  /-- Outcome of the float comparison `ibavg<ibtlow` after the update. -/
  ibLtLow : Bool
  /-- Outcome of the float comparison `ibavg>ibthigh` after the update. -/
  ibGtHigh : Bool
  /-- Value of `jack_ringbuffer_read_space(rb)`. -/
  rbReadSpace : Int
  /-- Value of `jack_ringbuffer_write_space(rb)`. -/
  rbWriteSpace : Int
  /-- Value of `jack_frames_since_cycle_start` in the RB update. -/
  rbElapsed : Int
  /-- Global `rbavg`, a `long`. -/
  rbavg : Int
  /-- Global `ibdrop`. -/
  ibdrop : Int
  /-- Global `ibadd`. -/
  ibadd : Int
  /-- Global `rbdrop`. -/
  rbdrop : Int
  /-- Global `rbadd`. -/
  rbadd : Int
  deriving DecidableEq, Repr

/-- What the capture half of `jack_process` (ring IB to the output ports) does. -/
structure IbHalf where
  /-- The bytes `jack_ringbuffer_read` copies out of IB. -/
  bytesRead : List Nat
  /-- The ring IB afterwards. -/
  ib : Ring
  /-- The trim `sd`. -/
  sd : Int
  /-- The assignment to `ibavg`. -/
  ibavg : IbAvgUpdate
  /-- Global `ibdrop` afterwards. -/
  ibdrop : Int
  /-- Global `ibadd` afterwards. -/
  ibadd : Int
  deriving DecidableEq, Repr

/-- The capture half of `jack_process`, from `int nb = jack_ringbuffer_read_space(ib)`
to the end of `if(na>0) {..}`. -/
def jackIbHalf (i : ProcIn) : IbHalf :=
  let nb := toInt32 (jack_ringbuffer_read_space i.ib)
  let nr := toInt32 (toSizeT (i.nframes * ibframe))
  if nb < nr then
    { bytesRead := [], ib := i.ib, sd := 0, ibavg := IbAvgUpdate.reset nb
      ibdrop := i.ibdrop, ibadd := i.ibadd }
  else
    let term :=
      toSizeT (toSizeT (toInt32 (nb - nr)) - toSizeT (i.ibElapsed * ibframe)) / AVGSCALE
    let sd0 : Int := 0
    let sd1 : Int := if i.ibLtLow then -1 else sd0
    let sd : Int := if i.ibGtHigh then 1 else sd1
    let na0 := toInt32 (toSizeT (toSizeT nr + toSizeT (toSizeT sd * ibframe)))
    let na := if na0 > nb then nb else na0
    let ibdrop1 := toInt64 (i.ibdrop + (if sd = 1 then 10 else 0))
    if na > 0 then
      let rd := jack_ringbuffer_read i.ib na
      let lp := dupLoop (nr - na).toNat na nr i.ibadd
      { bytesRead := rd.1, ib := rd.2, sd := sd, ibavg := IbAvgUpdate.ewma term
        ibdrop := ibdrop1, ibadd := lp.2 }
    else
      { bytesRead := [], ib := i.ib, sd := sd, ibavg := IbAvgUpdate.ewma term
        ibdrop := ibdrop1, ibadd := i.ibadd }

/-- What the playback half of `jack_process` (input ports to ring RB) does. -/
structure RbHalf where
  /-- The value `jack_process` returns. -/
  ret : Int
  /-- Whether the overrun branch was taken. -/
  overrun : Bool
  /-- The byte count `na` handed to `jack_ringbuffer_write` (0 when it is not called). -/
  requested : Int
  /-- The number of bytes `jack_ringbuffer_write` stores in RB. -/
  written : Int
  /-- Global `rbavg` afterwards. -/
  rbavg : Int
  /-- Global `rbdrop` afterwards. -/
  rbdrop : Int
  /-- Global `rbadd` afterwards. -/
  rbadd : Int
  deriving DecidableEq, Repr

/-- The playback half of `jack_process`, from `nb = jack_ringbuffer_read_space(rb)` to
the end of the function.  In `rbavg += ((nb+e*rbframe)/AVGSCALE)-(rbavg/AVGSCALE)` the
first quotient is a `size_t` division, the second a `long` division, and the
difference and the sum are taken in `size_t`; `rbavg<rbtlow` and `rbavg>rbthigh`
compare in `size_t`. -/
def jackRbHalf (i : ProcIn) : RbHalf :=
  let nb := toInt32 i.rbReadSpace
  let nr := toInt32 (toSizeT (i.nframes * rbframe))
  let na := toInt32 i.rbWriteSpace
  if nr + 1 > na then
    { ret := 0, overrun := true, requested := 0, written := 0, rbavg := nb
      rbdrop := i.rbdrop, rbadd := i.rbadd }
  else
    let q1 := toSizeT (toSizeT nb + toSizeT (i.rbElapsed * rbframe)) / AVGSCALE
    let q2 := Int.tdiv i.rbavg AVGSCALE
    let rbavg1 := toInt64 (toSizeT (toSizeT i.rbavg + toSizeT (q1 - toSizeT q2)))
    let na0 := nr
    let low := toSizeT rbavg1 < rbtlow
    let na1 := if low then toInt32 (toSizeT (toSizeT na0 + rbframe)) else na0
    let rbadd1 := if low then toInt64 (i.rbadd + 1) else i.rbadd
    let high := toSizeT rbavg1 > rbthigh
    let na2 := if high then toInt32 (toSizeT (toSizeT na1 - rbframe)) else na1
    let rbdrop1 := if high then toInt64 (i.rbdrop + 1) else i.rbdrop
    let w := jack_ringbuffer_write i.rbWriteSpace na2
    { ret := if w < toSizeT na2 then 1 else 0
      overrun := false
      requested := na2
      written := w
      rbavg := rbavg1
      rbdrop := rbdrop1
      rbadd := rbadd1 }

/-- What one call of `jack_process` does. -/
structure ProcOut where
  /-- The value returned. -/
  ret : Int
  /-- Whether the cycle was processed (`running != 0` and `nframes <= 1024`). -/
  processed : Bool
  /-- The capture half. -/
  ibHalf : IbHalf
  /-- The playback half. -/
  rbHalf : RbHalf
  deriving DecidableEq, Repr

/-- The callback `jack_process`. -/
def jack_process (i : ProcIn) : ProcOut :=
  let idleIb : IbHalf :=
    { bytesRead := [], ib := i.ib, sd := 0, ibavg := IbAvgUpdate.keep
      ibdrop := i.ibdrop, ibadd := i.ibadd }
  let idleRb : RbHalf :=
    { ret := 0, overrun := false, requested := 0, written := 0, rbavg := i.rbavg
      rbdrop := i.rbdrop, rbadd := i.rbadd }
  if i.running = 0 then
    { ret := 0, processed := false, ibHalf := idleIb, rbHalf := idleRb }
  else if i.nframes > 1024 then
    { ret := 0, processed := false, ibHalf := idleIb, rbHalf := idleRb }
  else
    let rbh := jackRbHalf i
    { ret := rbh.ret, processed := true, ibHalf := jackIbHalf i, rbHalf := rbh }

/-! ## `jack_process`: the capture samples (scratch array and output ports) -/

/-- The scratch array `ab` of `jack_process`, as the byte stored at each byte offset. -/
abbrev Scratch := Nat → Nat

/-- The ten output port buffers: `out ch k` is float `k` of `out[ch]`, as its four bytes. -/
abbrev Ports := Nat → Nat → List Nat

/-- The float `ab[k]`, as its four bytes. -/
def scratchFloat (ab : Scratch) (k : Nat) : List Nat :=
  [ab (4 * k), ab (4 * k + 1), ab (4 * k + 2), ab (4 * k + 3)]

/-- The scratch array after `jack_ringbuffer_read(ib, (void *)ab, na)` has copied `bytes`
to its start. -/
def scratchRead (ab : Scratch) (bytes : List Nat) : Scratch :=
  fun j => if j < bytes.length then bytes.getD j 0 else ab j

/-- The scratch array after the float assignment `ab[dst] = ab[src]`. -/
def scratchCopy (ab : Scratch) (dst src : Nat) : Scratch :=
  fun j => if 4 * dst ≤ j ∧ j < 4 * dst + 4 then ab (4 * src + (j - 4 * dst)) else ab j

/-- The loop `while(na<nr) { *pab = *(pab-10); pab++; na+=sample_size; ibadd++; }` with
fuel `f` and `pab` at float index `pab`: the scratch array afterwards.  A read below the
start of `ab` (`pab < 10`) is outside the model; the index is cut off at 0. -/
def dupDataLoop : Nat → Scratch → Nat → Int → Int → Scratch
  | 0, ab, _, _, _ => ab
  | f + 1, ab, pab, na, nr =>
    if na < nr then
      dupDataLoop f (scratchCopy ab pab (pab - 10)) (pab + 1)
        (toInt32 (toSizeT (toSizeT na + sample_size))) nr
    else ab

/-- The port buffers after the assignment `*(out[ch]) = v` with `out[ch]` at float `k`. -/
def portWrite (out : Ports) (ch k : Nat) (v : List Nat) : Ports :=
  fun c j => if c = ch ∧ j = k then v else out c j

/-- The loop `for(ch=0;ch<10;ch++) { *(out[ch]) = *pab; out[ch]++; pab++; }` with `n`
iterations left at channel `ch`; every `out[ch]` is at float `k`, `pab` at float index
`pab`. -/
def deintChLoop (ab : Scratch) : Nat → Nat → Nat → Nat → Ports → Ports
  | 0, _, _, _, out => out
  | n + 1, ch, k, pab, out =>
    deintChLoop ab n (ch + 1) k (pab + 1) (portWrite out ch k (scratchFloat ab pab))

/-- The loop `for(i=0;i<nframes;i++)` around it with `n` iterations left at frame `k`; the
inner loop advances `pab` by ten floats and every `out[ch]` by one. -/
def deintLoop (ab : Scratch) : Nat → Nat → Nat → Ports → Ports
  | 0, _, _, out => out
  | n + 1, k, pab, out => deintLoop ab n (k + 1) (pab + 10) (deintChLoop ab 10 0 k pab out)

/-- The output port buffers after `jack_process`, from the scratch array `ab` and the
port buffers `out` as they are on entry: the capture half of the callback with its
samples. -/
def jack_process_ports (i : ProcIn) (ab : Scratch) (out : Ports) : Ports :=
  if i.running = 0 then out
  else if i.nframes > 1024 then out
  else
    let nb := toInt32 (jack_ringbuffer_read_space i.ib)
    let nr := toInt32 (toSizeT (i.nframes * ibframe))
    let sd0 : Int := 0
    let sd1 : Int := if i.ibLtLow then -1 else sd0
    let sd : Int := if i.ibGtHigh then 1 else sd1
    let na0 := toInt32 (toSizeT (toSizeT nr + toSizeT (toSizeT sd * ibframe)))
    let na := if nb < nr then 0 else if na0 > nb then nb else na0
    let pab := (toSizeT na / sample_size).toNat
    if na > 0 then
      let rd := jack_ringbuffer_read i.ib na
      let ab1 := scratchRead ab rd.1
      let ab2 := dupDataLoop (nr - na).toNat ab1 pab na nr
      deintLoop ab2 i.nframes.toNat 0 0 out
    else out

/-! ## Auxiliary definitions used to state the theorems -/

/-- Two's complement value of a 24-bit pattern. -/
def toInt24 (u : Nat) : Int := if u < 8388608 then (u : Int) else (u : Int) - 16777216

/-- One pass of the body of the channel loop of `bulk_in` for channel `c`: the new
pattern of `sample[c]` from the old pattern `v` and the byte `bb`. -/
def chStep (c v bb : Nat) : Nat := ((v <<< 1) % 4294967296) ||| (1 &&& (bb >>> c))

/-- The pattern of `sample[c]` after `n` bytes starting at `bpos`, from the pattern `v`. -/
def chanFold (buffer : List Nat) (c : Nat) : Nat → Nat → Nat → Nat
  | 0, _, v => v
  | n + 1, bpos, v => chanFold buffer c n (bpos + 1) (chStep c v (buffer.getD bpos 0 % 256))

/-- The sum of the six feedback bytes, each read as an unsigned value. -/
def fbByteSum (buffer : List Nat) : Int :=
  byteAt buffer 0 + byteAt buffer 1 + byteAt buffer 2 + byteAt buffer 3 + byteAt buffer 4
    + byteAt buffer 5

/-- A feedback transfer whose six bytes are zero. -/
def fbZeroTransfer : Transfer :=
  { status := TransferStatus.completed, length := 6, packets := [3, 3]
    buffer := [0, 0, 0, 0, 0, 0] }

/-- A feedback transfer whose six bytes sum to 570. -/
def fbSlowTransfer : Transfer :=
  { status := TransferStatus.completed, length := 6, packets := [3, 3]
    buffer := [95, 95, 95, 95, 95, 95] }

/-- A capture transfer of two rows: in row 0 channel 0 has its first and last bit set
and channel 1 its last bit; row 1 has every payload bit set. -/
def bulkTwoRows : Transfer :=
  { status := TransferStatus.completed
    length := 64
    packets := []
    buffer := [1, 0, 0, 0, 0, 0, 0, 0, 0, 0, 0, 0, 0, 0, 0, 0, 0, 0, 0, 0, 0, 0, 0, 3]
      ++ List.replicate 8 7 ++ List.replicate 24 255 ++ List.replicate 8 0 }

/-- A playback state with an empty ring and the accumulator at 5. -/
def outEmptyRing : OutState := { outDelta := 5, rb := [], transfer := outTransferInit }

/-- A playback state with 481 stereo frames of zero bytes queued and the accumulator at 5. -/
def outFullRing : OutState :=
  { outDelta := 5, rb := List.replicate 3848 0, transfer := outTransferInit }

/-- A host cycle of 1024 frames with 8199 bytes free in RB (24568 of the 32767 usable
bytes occupied) and the RB average at 0. -/
def gapCycle : ProcIn :=
  { running := 1, nframes := 1024, ib := [], ibElapsed := 0, ibLtLow := false, ibGtHigh := false
    rbReadSpace := 24568, rbWriteSpace := 8199, rbElapsed := 0, rbavg := 0
    ibdrop := 0, ibadd := 0, rbdrop := 0, rbadd := 0 }

/-- A host cycle of 1024 frames with RB full. -/
def overrunCycle : ProcIn :=
  { running := 1, nframes := 1024, ib := [], ibElapsed := 0, ibLtLow := false, ibGtHigh := false
    rbReadSpace := 32767, rbWriteSpace := 0, rbElapsed := 0, rbavg := 6000
    ibdrop := 0, ibadd := 0, rbdrop := 0, rbadd := 0 }

/-- A host cycle of zero frames with 100 bytes free in RB and the RB average above the
high deadband edge. -/
def emptyCycle : ProcIn :=
  { running := 1, nframes := 0, ib := [], ibElapsed := 0, ibLtLow := false, ibGtHigh := false
    rbReadSpace := 32667, rbWriteSpace := 100, rbElapsed := 0, rbavg := 10000
    ibdrop := 0, ibadd := 0, rbdrop := 0, rbadd := 0 }

/-- A host cycle of 64 frames with 100 frames queued in IB, the IB average below the low
deadband edge, and RB half full. -/
def steadyCycle : ProcIn :=
  { running := 1, nframes := 64, ib := List.replicate 4000 0, ibElapsed := 0
    ibLtLow := true, ibGtHigh := false
    rbReadSpace := 6144, rbWriteSpace := 26623, rbElapsed := 0, rbavg := 6144
    ibdrop := 0, ibadd := 0, rbdrop := 0, rbadd := 0 }

/-- A host cycle of 1024 frames with 8199 bytes free in RB (24568 of the 32767 usable
bytes occupied) and the RB average at 1400. -/
def gapLowCycle : ProcIn :=
  { running := 1, nframes := 1024, ib := [], ibElapsed := 0, ibLtLow := false, ibGtHigh := false
    rbReadSpace := 24568, rbWriteSpace := 8199, rbElapsed := 0, rbavg := 1400
    ibdrop := 0, ibadd := 0, rbdrop := 0, rbadd := 0 }

/-- A host cycle of 1025 frames. -/
def oversizeCycle : ProcIn :=
  { running := 1, nframes := 1025, ib := [1, 2, 3, 4], ibElapsed := 0
    ibLtLow := false, ibGtHigh := false
    rbReadSpace := 6144, rbWriteSpace := 26623, rbElapsed := 0, rbavg := 6144
    ibdrop := 3, ibadd := 4, rbdrop := 5, rbadd := 6 }

/-- A host cycle of 1024 frames with 6144 bytes queued in RB. -/
def fullSizeCycle : ProcIn :=
  { running := 1, nframes := 1024, ib := [], ibElapsed := 0
    ibLtLow := false, ibGtHigh := false
    rbReadSpace := 6144, rbWriteSpace := 26623, rbElapsed := 0, rbavg := 6144
    ibdrop := 0, ibadd := 0, rbdrop := 0, rbadd := 0 }

/-- A host cycle of 64 frames with 300 bytes queued in RB and the RB average at 299. -/
def ewmaCycle : ProcIn :=
  { running := 1, nframes := 64, ib := [], ibElapsed := 0, ibLtLow := false, ibGtHigh := false
    rbReadSpace := 300, rbWriteSpace := 32467, rbElapsed := 0, rbavg := 299
    ibdrop := 0, ibadd := 0, rbdrop := 0, rbadd := 0 }

/-- A host cycle of 64 frames (2560 bytes) with exactly 2560 bytes queued in IB, entered
one frame after the cycle start. -/
def lateCycle : ProcIn :=
  { running := 1, nframes := 64, ib := List.replicate 2560 0, ibElapsed := 1
    ibLtLow := false, ibGtHigh := true
    rbReadSpace := 6144, rbWriteSpace := 26623, rbElapsed := 1, rbavg := 6144
    ibdrop := 0, ibadd := 0, rbdrop := 0, rbadd := 0 }

/-- The byte count `na` of the capture half of `jack_process` when IB holds at least
`nr` bytes: `nr + 40*sd` cut off at the occupancy. -/
def ibNa (i : ProcIn) : Int :=
  min (i.nframes * 40 + 40 * (if i.ibGtHigh = true then 1 else if i.ibLtLow = true then -1 else 0))
    (i.ib.length : Int)

/-- A host cycle of 2 frames with 80 bytes, numbered 0..79, queued in IB and the IB
average below the low deadband edge. -/
def shortCycle : ProcIn :=
  { running := 1, nframes := 2, ib := List.range 80, ibElapsed := 0
    ibLtLow := true, ibGtHigh := false
    rbReadSpace := 6144, rbWriteSpace := 26623, rbElapsed := 0, rbavg := 6144
    ibdrop := 0, ibadd := 0, rbdrop := 0, rbadd := 0 }

/-! ## Lemmas on `cb_out` -/

theorem tdiv_three (d : Int) :
    Int.tdiv d 3 = if 0 ≤ d then d / 3 else -((-d) / 3) := by
  split
  · next h => exact Int.tdiv_eq_ediv h (by norm_num)
  · next h =>
    have h1 : Int.tdiv (-(-d)) 3 = -(Int.tdiv (-d) 3) := Int.neg_tdiv (-d) 3
    rw [neg_neg] at h1
    rw [h1, Int.tdiv_eq_ediv (by omega) (by norm_num)]

theorem cbOutSd_cases (d : Int) :
    (cbOutSd d = -1 ∧ d ≤ -3) ∨ (cbOutSd d = 0 ∧ -2 ≤ d ∧ d ≤ 2) ∨ (cbOutSd d = 1 ∧ 3 ≤ d) := by
  unfold cbOutSd fbAdjust
  simp only [tdiv_three]
  split <;> split <;> split <;> omega

theorem cbOutSd_eq_sign (d : Int) : cbOutSd d = Int.sign (Int.tdiv d 3) := by
  unfold cbOutSd fbAdjust
  rcases lt_trichotomy (Int.tdiv d 3) 0 with h | h | h
  · rw [Int.sign_eq_neg_one_of_neg h]
    simp [h, not_lt.mpr (le_of_lt h)]
  · rw [h]; simp
  · rw [Int.sign_eq_one_of_pos h]
    simp [h, not_lt.mpr (le_of_lt h)]

theorem cb_out_transfer_length (scale : List Nat → Int) (s : OutState)
    (hst : s.transfer.status ≠ TransferStatus.cancelled) :
    (cb_out scale s).transfer.length = 2880 + cbOutSd s.outDelta * 6 := by
  unfold cb_out
  simp only [hst, ne_eq, not_false_eq_true, if_true]
  split_ifs <;> rfl

theorem cb_out_transfer_packets (scale : List Nat → Int) (s : OutState)
    (hst : s.transfer.status ≠ TransferStatus.cancelled) :
    (cb_out scale s).transfer.packets
      = s.transfer.packets.set 39 (toUInt32 (72 + cbOutSd s.outDelta * 6)) := by
  unfold cb_out
  simp only [hst, ne_eq, not_false_eq_true, if_true]
  split_ifs <;> rfl

theorem packets_shape (ps : List Int) (hlen : ps.length = 40)
    (h72 : ∀ i, i < 39 → ps.getD i 0 = 72) (x : Int) :
    ps.set 39 x = List.replicate 39 72 ++ [x] := by
  apply List.ext_getElem
  · simp [hlen]
  · intro i h1 h2
    simp only [List.length_set, hlen] at h1
    by_cases hi : i = 39
    · subst hi
      simp
    · have hi39 : i < 39 := by omega
      have := h72 i hi39
      rw [List.getD_eq_getElem ps 0 (by omega)] at this
      rw [List.getElem_set_ne (by omega)]
      rw [List.getElem_append_left (by rw [List.length_replicate]; omega)]
      rw [List.getElem_replicate, this]

theorem encodeSample_bytes (s : Int) :
    encodeSample s
      = [((s >>> (8 : Nat)) % 256).toNat, ((s >>> (16 : Nat)) % 256).toNat,
          ((s >>> (24 : Nat)) % 256).toNat] := by
  have h16 : (s >>> (8 : Nat)) >>> (8 : Nat) = s >>> (16 : Nat) := by
    simp only [Int.shiftRight_eq_div_pow]; norm_num; omega
  have h24 : (s >>> (16 : Nat)) >>> (8 : Nat) = s >>> (24 : Nat) := by
    simp only [Int.shiftRight_eq_div_pow]; norm_num; omega
  simp only [encodeSample, encodeLoop, h16, h24]

theorem encodeSample_length (s : Int) : (encodeSample s).length = 3 := by
  simp only [encodeSample, encodeLoop, List.length_cons, List.length_nil]

theorem transcodeLoop_length (scale : List Nat → Int) (ab : List Nat) (n : Nat) :
    ∀ p, (transcodeLoop scale ab n p).length = 6 * n := by
  induction n with
  | zero => intro p; rfl
  | succ n ih =>
    intro p
    rw [transcodeLoop, List.length_append, ih, transcodeFrame, List.length_append,
      encodeSample_length, encodeSample_length]
    omega

theorem transcodeLoop_flatMap (scale : List Nat → Int) (ab : List Nat) (n : Nat) :
    ∀ p, transcodeLoop scale ab n p
      = (List.range (2 * n)).flatMap (fun k => encodeSample (scale (floatAt ab (p + k)))) := by
  induction n with
  | zero => intro p; rfl
  | succ n ih =>
    intro p
    have h2 : 2 * (n + 1) = (2 * n + 1) + 1 := by omega
    rw [transcodeLoop, ih, transcodeFrame, h2, List.range_succ_eq_map, List.range_succ_eq_map]
    simp only [List.map_cons, List.flatMap_cons, List.map_map, List.flatMap_map, Nat.add_zero,
      List.append_assoc]
    congr 2
    apply congrArg
    funext k
    simp only [Function.comp, Nat.succ_eq_add_one]
    have : p + 2 + k = p + (k + 1 + 1) := by omega
    rw [this]

theorem cb_out_nr (d : Int) :
    toInt32 (toSizeT (rbframe * toSizeT (480 + cbOutSd d))) = (480 + cbOutSd d) * 8 := by
  unfold toInt32 toSizeT rbframe sample_size
  rcases cbOutSd_cases d with h | h | h <;> rw [h.1] <;> norm_num

/-! ## Lemmas on `bulk_in` -/

theorem shl8_eq (v : Nat) (hv : v < 16777216) : shl8 v = 256 * toInt24 v := by
  unfold shl8 toInt32 toInt24
  rw [Nat.shiftLeft_eq]
  have : v * 2 ^ 8 % 4294967296 = v * 256 := by
    norm_num; omega
  rw [this]
  split <;> push_cast <;> omega

theorem chStep_eq (c v bb : Nat) (hv : v < 2147483648) :
    chStep c v bb = 2 * v + (bb >>> c) % 2 := by
  unfold chStep
  have h1 : (v <<< 1) % 4294967296 = v <<< 1 := by
    rw [Nat.shiftLeft_eq]; omega
  have h2 : (bb >>> c) % 2 < 2 ^ 1 := by omega
  have h3 := Nat.mul_add_lt_is_or h2 v
  rw [h1, Nat.one_and_eq_mod_two, Nat.shiftLeft_eq, Nat.mul_comm v (2 ^ 1), ← h3]

theorem chStep_testBit (c v bb j : Nat) (hv : v < 2147483648) :
    (chStep c v bb).testBit j = if j = 0 then bb.testBit c else v.testBit (j - 1) := by
  rw [chStep_eq c v bb hv]
  cases j with
  | zero =>
    simp only [if_true]
    rw [Nat.testBit_zero, Nat.testBit_to_div_mod, Nat.shiftRight_eq_div_pow]
    congr 1
    apply propext
    omega
  | succ j =>
    rw [Nat.testBit_succ]
    have : (2 * v + (bb >>> c) % 2) / 2 = v := by omega
    rw [this]
    simp

theorem chanFold_spec (buffer : List Nat) (c : Nat) (n : Nat) :
    ∀ (m bpos v : Nat), v < 2 ^ m → m + n ≤ 32 →
      chanFold buffer c n bpos v < 2 ^ (m + n)
      ∧ ∀ j, (chanFold buffer c n bpos v).testBit j
          = if j < n then (buffer.getD (bpos + (n - 1 - j)) 0 % 256).testBit c
            else v.testBit (j - n) := by
  induction n with
  | zero =>
    intro m bpos v hv _
    exact ⟨hv, fun j => by simp [chanFold]⟩
  | succ n ih =>
    intro m bpos v hv hm
    have hv31 : v < 2147483648 :=
      lt_of_lt_of_le hv (by
        have : 2 ^ m ≤ 2 ^ 31 := Nat.pow_le_pow_right (by norm_num) (by omega)
        simpa using this)
    have hstep : chStep c v (buffer.getD bpos 0 % 256) < 2 ^ (m + 1) := by
      rw [chStep_eq c v _ hv31, pow_succ]
      omega
    obtain ⟨h1, h2⟩ := ih (m + 1) (bpos + 1) _ hstep (by omega)
    refine ⟨?_, ?_⟩
    · rw [chanFold]
      have : m + (n + 1) = m + 1 + n := by omega
      rw [this]; exact h1
    · intro j
      rw [chanFold, h2 j]
      by_cases hj : j < n
      · have hj2 : j < n + 1 := by omega
        rw [if_pos hj, if_pos hj2]
        have : bpos + 1 + (n - 1 - j) = bpos + (n + 1 - 1 - j) := by omega
        rw [this]
      · rw [if_neg hj, chStep_testBit c v _ _ hv31]
        by_cases hj3 : j = n
        · subst hj3
          simp
        · have hj4 : ¬ j < n + 1 := by omega
          have hj5 : j - n ≠ 0 := by omega
          rw [if_neg hj4, if_neg hj5]
          congr 1

theorem rowChLoop_five (s0 s1 s2 s3 s4 bb : Nat) :
    rowChLoop 5 0 [s0, s1, s2, s3, s4] bb
      = [chStep 0 s0 bb, chStep 1 s1 bb, chStep 2 s2 bb, chStep 3 s3 bb, chStep 4 s4 bb] := by
  simp [rowChLoop, chStep, ← Nat.shiftRight_add]

theorem rowByteLoop_eq (buffer : List Nat) (n : Nat) :
    ∀ (bpos s0 s1 s2 s3 s4 : Nat),
      rowByteLoop buffer n bpos [s0, s1, s2, s3, s4]
        = ([chanFold buffer 0 n bpos s0, chanFold buffer 1 n bpos s1,
            chanFold buffer 2 n bpos s2, chanFold buffer 3 n bpos s3,
            chanFold buffer 4 n bpos s4], bpos + n) := by
  induction n with
  | zero => intro bpos s0 s1 s2 s3 s4; rfl
  | succ n ih =>
    intro bpos s0 s1 s2 s3 s4
    rw [rowByteLoop, rowChLoop_five, ih]
    simp only [chanFold]
    congr 1
    omega

theorem rowLoop_succ (buffer : List Nat) (n bpos : Nat) :
    rowLoop buffer (n + 1) bpos
      = [shl8 (chanFold buffer 0 24 bpos 0), shl8 (chanFold buffer 1 24 bpos 0),
          shl8 (chanFold buffer 2 24 bpos 0), shl8 (chanFold buffer 3 24 bpos 0),
          shl8 (chanFold buffer 4 24 bpos 0)] ++ rowLoop buffer n (bpos + 32) := by
  rw [rowLoop, rowByteLoop_eq]
  simp only [rowConvLoop, List.getD_cons_zero, List.getD_cons_succ]

theorem rowLoop_length (buffer : List Nat) (n : Nat) :
    ∀ bpos, (rowLoop buffer n bpos).length = 5 * n := by
  induction n with
  | zero => intro bpos; rfl
  | succ n ih =>
    intro bpos
    rw [rowLoop_succ, List.length_append, ih]
    simp only [List.length_cons, List.length_nil]
    omega

theorem getD_five_add {α : Type} (a b c d e : α) (l : List α) (k : Nat) (x : α) :
    ([a, b, c, d, e] ++ l).getD (k + 5) x = l.getD k x := by
  simp only [List.cons_append, List.nil_append, List.getD_cons_succ]

theorem getD_five_lt {α : Type} (f : Nat → α) (l : List α) (c : Nat) (hc : c < 5) (x : α) :
    ([f 0, f 1, f 2, f 3, f 4] ++ l).getD c x = f c := by
  interval_cases c <;>
    simp only [List.cons_append, List.getD_cons_zero, List.getD_cons_succ]

theorem rowLoop_getD (buffer : List Nat) (n : Nat) :
    ∀ (bpos r c : Nat), r < n → c < 5 →
      (rowLoop buffer n bpos).getD (5 * r + c) 0
        = shl8 (chanFold buffer c 24 (bpos + 32 * r) 0) := by
  induction n with
  | zero => intro bpos r c hr; omega
  | succ n ih =>
    intro bpos r c hr hc
    rw [rowLoop_succ]
    cases r with
    | zero =>
      have h0 : 5 * 0 + c = c := by omega
      have h1 : bpos + 32 * 0 = bpos := by omega
      rw [h0, h1]
      exact getD_five_lt (fun k => shl8 (chanFold buffer k 24 bpos 0)) _ c hc 0
    | succ r =>
      have h5 : 5 * (r + 1) + c = (5 * r + c) + 5 := by omega
      have h6 : bpos + 32 * (r + 1) = bpos + 32 + 32 * r := by omega
      rw [h5, h6, getD_five_add]
      exact ih (bpos + 32) r c (by omega) hc

theorem testBit_mod_256 (x c : Nat) (hc : c < 5) : (x % 256).testBit c = x.testBit c := by
  have := Nat.testBit_mod_two_pow x 8 c
  have h8 : (2 : Nat) ^ 8 = 256 := by norm_num
  rw [h8] at this
  rw [this]
  simp
  intro h; omega

theorem testBit_mod_32 (x c : Nat) (hc : c < 5) : (x % 32).testBit c = x.testBit c := by
  have := Nat.testBit_mod_two_pow x 5 c
  have h8 : (2 : Nat) ^ 5 = 32 := by norm_num
  rw [h8] at this
  rw [this]
  simp [hc]

theorem chanFold_row (buffer : List Nat) (c bpos : Nat) (hc : c < 5) :
    chanFold buffer c 24 bpos 0 < 16777216
    ∧ ∀ b, b < 24 →
        (chanFold buffer c 24 bpos 0).testBit (23 - b) = (buffer.getD (bpos + b) 0).testBit c := by
  obtain ⟨h1, h2⟩ := chanFold_spec buffer c 24 0 bpos 0 (by norm_num) (by norm_num)
  refine ⟨by simpa using h1, ?_⟩
  intro b hb
  rw [h2 (23 - b), if_pos (by omega), testBit_mod_256 _ _ hc]
  have : 24 - 1 - (23 - b) = b := by omega
  rw [this]

theorem chanFold_congr (buffer buffer2 : List Nat) (c bpos : Nat) (hc : c < 5)
    (h : ∀ b, b < 24 → buffer2.getD (bpos + b) 0 % 32 = buffer.getD (bpos + b) 0 % 32) :
    chanFold buffer2 c 24 bpos 0 = chanFold buffer c 24 bpos 0 := by
  obtain ⟨h1, h2⟩ := chanFold_row buffer c bpos hc
  obtain ⟨h3, h4⟩ := chanFold_row buffer2 c bpos hc
  apply Nat.eq_of_testBit_eq
  intro j
  by_cases hj : j < 24
  · have e1 := h2 (23 - j) (by omega)
    have e2 := h4 (23 - j) (by omega)
    have : 23 - (23 - j) = j := by omega
    rw [this] at e1 e2
    rw [e1, e2, ← testBit_mod_32 _ _ hc, h _ (by omega), testBit_mod_32 _ _ hc]
  · have hp : (2 : Nat) ^ 24 ≤ 2 ^ j := Nat.pow_le_pow_right (by norm_num) (by omega)
    have q1 : chanFold buffer c 24 bpos 0 < 2 ^ j := by omega
    have q2 : chanFold buffer2 c 24 bpos 0 < 2 ^ j := by omega
    rw [Nat.testBit_lt_two_pow q1, Nat.testBit_lt_two_pow q2]

theorem bulk_in_completed (done ws : Int) (t : Transfer)
    (hst : t.status = TransferStatus.completed) :
    bulk_in done ws t =
      { rows := bulkRows ws
        a := rowLoop t.buffer (bulkRows ws).toNat 0
        requested := toSizeT (toSizeT (5 * bulkRows ws) * sample_size)
        written := jack_ringbuffer_write ws (toSizeT (toSizeT (5 * bulkRows ws) * sample_size))
        done := if jack_ringbuffer_write ws (toSizeT (toSizeT (5 * bulkRows ws) * sample_size))
                    < toSizeT (toSizeT (5 * bulkRows ws) * sample_size) then 1 else done } := by
  unfold bulk_in
  simp [hst]

theorem bulkRows_eq (ws : Int) (h0 : 0 ≤ ws) (h1 : ws < 4294967296) :
    bulkRows ws = min 4096 (2 * (ws / 40)) := by
  unfold bulkRows toInt32 toSizeT ibframe sample_size
  norm_num
  have hq : 0 ≤ ws / 40 := by omega
  have hq2 : ws / 40 < 107374183 := by omega
  split <;> omega

/-! ## Lemmas on `fb_in` -/

theorem byteAt_range (buffer : List Nat) (i : Nat) :
    0 ≤ byteAt buffer i ∧ byteAt buffer i < 256 := by
  unfold byteAt; omega

theorem fbByteSum_range (buffer : List Nat) :
    0 ≤ fbByteSum buffer ∧ fbByteSum buffer ≤ 1530 := by
  have h0 := byteAt_range buffer 0
  have h1 := byteAt_range buffer 1
  have h2 := byteAt_range buffer 2
  have h3 := byteAt_range buffer 3
  have h4 := byteAt_range buffer 4
  have h5 := byteAt_range buffer 5
  unfold fbByteSum; omega

theorem fbSumLoop_six (buffer : List Nat) : fbSumLoop buffer 6 0 0 = fbByteSum buffer := by
  have h0 := byteAt_range buffer 0
  have h1 := byteAt_range buffer 1
  have h2 := byteAt_range buffer 2
  have h3 := byteAt_range buffer 3
  have h4 := byteAt_range buffer 4
  have h5 := byteAt_range buffer 5
  simp only [fbSumLoop, fbByteSum, toUInt32]
  change (((((((0 : Int) + byteAt buffer 0) % 4294967296 + byteAt buffer 1) % 4294967296
    + byteAt buffer 2) % 4294967296 + byteAt buffer 3) % 4294967296
    + byteAt buffer 4) % 4294967296 + byteAt buffer 5) % 4294967296 = _
  omega

theorem fb_in_eq (d : Int) (t : Transfer) (hst : t.status ≠ TransferStatus.cancelled) :
    fb_in d t = toInt32 (d + fbByteSum t.buffer - 576) := by
  unfold fb_in
  simp only [hst, ne_eq, not_false_eq_true, if_true, fbSumLoop_six]
  unfold toInt32 toUInt32
  omega

/-! ## Lemmas on `jack_process` -/

theorem jack_process_running (i : ProcIn) (hrun : i.running ≠ 0) (hn : i.nframes ≤ 1024) :
    jack_process i =
      { ret := (jackRbHalf i).ret, processed := true, ibHalf := jackIbHalf i,
        rbHalf := jackRbHalf i } := by
  unfold jack_process
  simp only [hrun, if_false, not_lt.mpr hn]

theorem jackIbHalf_read (i : ProcIn) (hn0 : 0 ≤ i.nframes) (hn : i.nframes ≤ 1024)
    (hib : (i.ib.length : Int) < 2147483648) (hnb : i.nframes * 40 ≤ (i.ib.length : Int)) :
    i.nframes * 40 - 40 ≤ ((jackIbHalf i).bytesRead.length : Int)
    ∧ ((jackIbHalf i).bytesRead.length : Int) ≤ i.nframes * 40 + 40
    ∧ (jackIbHalf i).bytesRead.length ≤ i.ib.length
    ∧ (jackIbHalf i).ib.length + (jackIbHalf i).bytesRead.length = i.ib.length := by
  have hnbv : toInt32 (jack_ringbuffer_read_space i.ib) = (i.ib.length : Int) := by
    unfold toInt32 jack_ringbuffer_read_space; omega
  have hnr : toInt32 (toSizeT (i.nframes * ibframe)) = i.nframes * 40 := by
    unfold toInt32 toSizeT ibframe sample_size; omega
  unfold jackIbHalf
  simp only [hnbv, hnr, not_lt.mpr hnb, if_false]
  have hna : ∀ sd : Int, (sd = -1 ∨ sd = 0 ∨ sd = 1) →
      toInt32 (toSizeT (toSizeT (i.nframes * 40) + toSizeT (toSizeT sd * ibframe)))
        = i.nframes * 40 + sd * 40 := by
    intro sd hsd
    unfold toInt32 toSizeT ibframe sample_size
    rcases hsd with h | h | h <;> subst h <;> norm_num <;> omega
  have hsd : ((if i.ibGtHigh = true then (1 : Int) else if i.ibLtLow = true then -1 else 0) = -1
      ∨ (if i.ibGtHigh = true then (1 : Int) else if i.ibLtLow = true then -1 else 0) = 0
      ∨ (if i.ibGtHigh = true then (1 : Int) else if i.ibLtLow = true then -1 else 0) = 1) := by
    split_ifs <;> simp
  rw [hna _ hsd]
  generalize (if i.ibGtHigh = true then (1 : Int) else if i.ibLtLow = true then -1 else 0) = sd
    at hsd ⊢
  split_ifs with h1 h2 h3 <;>
    simp only [jack_ringbuffer_read, List.length_take, List.length_drop, List.length_nil] <;>
    omega

theorem jackRbHalf_written (i : ProcIn) (hn1 : 1 ≤ i.nframes) (hn : i.nframes ≤ 1024)
    (hws0 : 0 ≤ i.rbWriteSpace) (hws : i.rbWriteSpace < 2147483648) :
    (i.nframes * 8 + 1 ≤ i.rbWriteSpace →
        (jackRbHalf i).overrun = false
        ∧ ((jackRbHalf i).requested = i.nframes * 8 - 8 ∨ (jackRbHalf i).requested = i.nframes * 8
            ∨ (jackRbHalf i).requested = i.nframes * 8 + 8)
        ∧ |(jackRbHalf i).written - i.nframes * 8| ≤ 8)
    ∧ (i.rbWriteSpace < i.nframes * 8 + 1 →
        (jackRbHalf i).overrun = true ∧ (jackRbHalf i).written = 0) := by
  have hnr : toInt32 (toSizeT (i.nframes * rbframe)) = i.nframes * 8 := by
    unfold toInt32 toSizeT rbframe sample_size; omega
  have hna : toInt32 i.rbWriteSpace = i.rbWriteSpace := by
    unfold toInt32; omega
  have hadd : toInt32 (toSizeT (toSizeT (i.nframes * 8) + rbframe)) = i.nframes * 8 + 8 := by
    unfold toInt32 toSizeT rbframe sample_size; omega
  have hsub : ∀ x : Int, 8 ≤ x → x ≤ 8200 → toInt32 (toSizeT (toSizeT x - rbframe)) = x - 8 := by
    intro x h1 h2
    unfold toInt32 toSizeT rbframe sample_size; omega
  have hwr : ∀ x : Int, 0 ≤ x → x ≤ 8200 →
      jack_ringbuffer_write i.rbWriteSpace x = min x i.rbWriteSpace := by
    intro x h1 h2
    unfold jack_ringbuffer_write toSizeT
    have : x % 18446744073709551616 = x := by omega
    rw [this]
    split <;> omega
  constructor
  · intro hfit
    unfold jackRbHalf
    simp only [hnr, hna, not_lt.mpr hfit, gt_iff_lt, if_false, hadd]
    refine ⟨trivial, ?_, ?_⟩
    · split_ifs <;> first | (rw [hsub _ (by omega) (by omega)]; omega) | omega
    · rw [abs_le]
      split_ifs <;>
        first
        | (rw [hsub _ (by omega) (by omega), hwr _ (by omega) (by omega)]; omega)
        | (rw [hwr _ (by omega) (by omega)]; omega)
  · intro hlt
    unfold jackRbHalf
    simp only [hnr, hna, gt_iff_lt, hlt, if_true, and_self]

theorem toInt64_lt (x : Int) : toInt64 x < 9223372036854775808 := by
  unfold toInt64; omega

theorem toInt64_sizeT_sum (a q b : Int) :
    toInt64 (toSizeT (toSizeT a + toSizeT (q - toSizeT b))) = toInt64 (a + q - b) := by
  unfold toInt64 toSizeT
  have h : (a % 18446744073709551616 + (q - b % 18446744073709551616) % 18446744073709551616)
      % 18446744073709551616 = (a + q - b) % 18446744073709551616 := by
    omega
  rw [h]
  omega

theorem tdiv_300 (a : Int) :
    Int.tdiv a 300 = if 0 ≤ a then a / 300 else -((-a) / 300) := by
  split
  · next h => exact Int.tdiv_eq_ediv h (by norm_num)
  · next h =>
    have h1 : Int.tdiv (-(-a)) 300 = -(Int.tdiv (-a) 300) := Int.neg_tdiv _ 300
    rw [neg_neg] at h1
    rw [h1, Int.tdiv_eq_ediv (by omega) (by norm_num)]

theorem deadband_constants :
    ibtlow = 59520 ∧ ibthigh = 63360 ∧ rbtlow = 5760 ∧ rbthigh = 6528 := by
  decide

theorem jackIbHalf_sd (i : ProcIn) (hn0 : 0 ≤ i.nframes) (hn : i.nframes ≤ 1024)
    (hib : (i.ib.length : Int) < 2147483648) (hnb : i.nframes * 40 ≤ (i.ib.length : Int)) :
    (jackIbHalf i).sd = if i.ibGtHigh = true then 1 else if i.ibLtLow = true then -1 else 0 := by
  have hnbv : toInt32 (jack_ringbuffer_read_space i.ib) = (i.ib.length : Int) := by
    unfold toInt32 jack_ringbuffer_read_space; omega
  have hnr : toInt32 (toSizeT (i.nframes * ibframe)) = i.nframes * 40 := by
    unfold toInt32 toSizeT ibframe sample_size; omega
  unfold jackIbHalf
  simp only [hnbv, hnr, not_lt.mpr hnb, if_false]
  split_ifs <;> rfl

theorem jackRbHalf_requested (i : ProcIn) (hn0 : 0 ≤ i.nframes) (hn : i.nframes ≤ 1024)
    (hws0 : 0 ≤ i.rbWriteSpace) (hws : i.rbWriteSpace < 2147483648)
    (hfit : i.nframes * 8 + 1 ≤ i.rbWriteSpace) (havg : 0 ≤ (jackRbHalf i).rbavg) :
    (jackRbHalf i).requested
      = if (jackRbHalf i).rbavg < 5760 then i.nframes * 8 + 8
        else if (jackRbHalf i).rbavg > 6528 then i.nframes * 8 - 8 else i.nframes * 8 := by
  have hnr : toInt32 (toSizeT (i.nframes * rbframe)) = i.nframes * 8 := by
    unfold toInt32 toSizeT rbframe sample_size; omega
  have hna : toInt32 i.rbWriteSpace = i.rbWriteSpace := by
    unfold toInt32; omega
  have hadd : toInt32 (toSizeT (toSizeT (i.nframes * 8) + rbframe)) = i.nframes * 8 + 8 := by
    unfold toInt32 toSizeT rbframe sample_size; omega
  have hsub : toInt32 (toSizeT (toSizeT (i.nframes * 8) - rbframe)) = i.nframes * 8 - 8 := by
    unfold toInt32 toSizeT rbframe sample_size; omega
  have hlow : rbtlow = 5760 := by decide
  have hhigh : rbthigh = 6528 := by decide
  have hb := toInt64_lt (toSizeT (toSizeT i.rbavg +
    toSizeT (toSizeT (toSizeT (toInt32 i.rbReadSpace) + toSizeT (i.rbElapsed * rbframe)) / AVGSCALE
      - toSizeT (i.rbavg.tdiv AVGSCALE))))
  unfold jackRbHalf at havg ⊢
  simp only [hnr, hna, not_lt.mpr hfit, gt_iff_lt, if_false, hadd, hlow, hhigh] at havg ⊢
  generalize toInt64 (toSizeT (toSizeT i.rbavg +
    toSizeT (toSizeT (toSizeT (toInt32 i.rbReadSpace) + toSizeT (i.rbElapsed * rbframe)) / AVGSCALE
      - toSizeT (i.rbavg.tdiv AVGSCALE)))) = r at havg hb ⊢
  have hr : toSizeT r = r := by
    unfold toSizeT; omega
  rw [hr]
  split_ifs <;> omega

theorem jackRbHalf_written_eq (i : ProcIn) (hn0 : 0 ≤ i.nframes) (hn : i.nframes ≤ 1024)
    (hws0 : 0 ≤ i.rbWriteSpace) (hws : i.rbWriteSpace < 2147483648)
    (hfit : i.nframes * 8 + 1 ≤ i.rbWriteSpace) :
    (jackRbHalf i).written = jack_ringbuffer_write i.rbWriteSpace (jackRbHalf i).requested := by
  have hnr : toInt32 (toSizeT (i.nframes * rbframe)) = i.nframes * 8 := by
    unfold toInt32 toSizeT rbframe sample_size; omega
  have hna : toInt32 i.rbWriteSpace = i.rbWriteSpace := by
    unfold toInt32; omega
  unfold jackRbHalf
  simp only [hnr, hna, not_lt.mpr hfit, gt_iff_lt, if_false]

theorem jackRbHalf_rbavg (i : ProcIn) (hn0 : 0 ≤ i.nframes) (hn : i.nframes ≤ 1024)
    (hws0 : 0 ≤ i.rbWriteSpace) (hws : i.rbWriteSpace < 2147483648)
    (hfit : i.nframes * 8 + 1 ≤ i.rbWriteSpace)
    (hnb0 : 0 ≤ i.rbReadSpace) (hnb : i.rbReadSpace < 2147483648)
    (he0 : 0 ≤ i.rbElapsed) (he : i.rbElapsed < 4294967296)
    (ha0 : -4611686018427387904 ≤ i.rbavg) (ha : i.rbavg < 4611686018427387904) :
    (jackRbHalf i).rbavg
      = i.rbavg + (i.rbReadSpace + 8 * i.rbElapsed) / 300 - Int.tdiv i.rbavg 300 := by
  have hnr : toInt32 (toSizeT (i.nframes * rbframe)) = i.nframes * 8 := by
    unfold toInt32 toSizeT rbframe sample_size; omega
  have hna : toInt32 i.rbWriteSpace = i.rbWriteSpace := by
    unfold toInt32; omega
  have hnbv : toInt32 i.rbReadSpace = i.rbReadSpace := by
    unfold toInt32; omega
  have hs : toSizeT (toSizeT i.rbReadSpace + toSizeT (i.rbElapsed * rbframe))
      = i.rbReadSpace + 8 * i.rbElapsed := by
    unfold toSizeT rbframe sample_size; omega
  have hq : 0 ≤ (i.rbReadSpace + 8 * i.rbElapsed) / 300
      ∧ (i.rbReadSpace + 8 * i.rbElapsed) / 300 < 1099511627776 := by
    omega
  have htd := tdiv_300 i.rbavg
  have hb : -4611686018427387904 ≤ Int.tdiv i.rbavg 300
      ∧ Int.tdiv i.rbavg 300 ≤ 4611686018427387904 := by
    rw [htd]; split <;> omega
  unfold jackRbHalf
  simp only [hnr, hna, hnbv, not_lt.mpr hfit, gt_iff_lt, if_false, AVGSCALE, hs,
    toInt64_sizeT_sum]
  unfold toInt64
  omega

theorem jackRbHalf_rbavg_nonneg (i : ProcIn) (hn0 : 0 ≤ i.nframes) (hn : i.nframes ≤ 1024)
    (hws0 : 0 ≤ i.rbWriteSpace) (hws : i.rbWriteSpace < 2147483648)
    (hnb0 : 0 ≤ i.rbReadSpace) (hnb : i.rbReadSpace < 2147483648)
    (he0 : 0 ≤ i.rbElapsed) (he : i.rbElapsed < 4294967296)
    (ha0 : 0 ≤ i.rbavg) (ha : i.rbavg < 4611686018427387904) :
    0 ≤ (jackRbHalf i).rbavg := by
  by_cases hfit : i.nframes * 8 + 1 ≤ i.rbWriteSpace
  · rw [jackRbHalf_rbavg i hn0 hn hws0 hws hfit hnb0 hnb he0 he (by omega) ha, tdiv_300,
      if_pos ha0]
    omega
  · have hnr : toInt32 (toSizeT (i.nframes * rbframe)) = i.nframes * 8 := by
      unfold toInt32 toSizeT rbframe sample_size; omega
    have hna : toInt32 i.rbWriteSpace = i.rbWriteSpace := by
      unfold toInt32; omega
    have hnbv : toInt32 i.rbReadSpace = i.rbReadSpace := by
      unfold toInt32; omega
    unfold jackRbHalf
    simp only [hnr, hna, hnbv, gt_iff_lt, not_le.mp hfit, if_true]
    exact hnb0

/-! ## Lemmas on the capture samples of `jack_process` -/

theorem deintChLoop_apply (ab : Scratch) (n : Nat) :
    ∀ (ch k pab : Nat) (out : Ports) (c j : Nat),
      deintChLoop ab n ch k pab out c j
        = if ch ≤ c ∧ c < ch + n ∧ j = k then scratchFloat ab (pab + (c - ch)) else out c j := by
  induction n with
  | zero =>
    intro ch k pab out c j
    have : ¬ (ch ≤ c ∧ c < ch + 0 ∧ j = k) := by omega
    rw [deintChLoop, if_neg this]
  | succ n ih =>
    intro ch k pab out c j
    rw [deintChLoop, ih]
    unfold portWrite
    by_cases h1 : ch + 1 ≤ c ∧ c < ch + 1 + n ∧ j = k
    · have h2 : ch ≤ c ∧ c < ch + (n + 1) ∧ j = k := by omega
      rw [if_pos h1, if_pos h2]
      congr 1
      omega
    · rw [if_neg h1]
      by_cases h3 : c = ch ∧ j = k
      · have h2 : ch ≤ c ∧ c < ch + (n + 1) ∧ j = k := by omega
        rw [if_pos h3, if_pos h2]
        congr 1
        omega
      · have h2 : ¬ (ch ≤ c ∧ c < ch + (n + 1) ∧ j = k) := by omega
        rw [if_neg h3, if_neg h2]

theorem deintLoop_apply (ab : Scratch) (n : Nat) :
    ∀ (k0 : Nat) (out : Ports) (c j : Nat),
      deintLoop ab n k0 (10 * k0) out c j
        = if c < 10 ∧ k0 ≤ j ∧ j < k0 + n then scratchFloat ab (10 * j + c) else out c j := by
  induction n with
  | zero =>
    intro k0 out c j
    have : ¬ (c < 10 ∧ k0 ≤ j ∧ j < k0 + 0) := by omega
    rw [deintLoop, if_neg this]
  | succ n ih =>
    intro k0 out c j
    have e : 10 * k0 + 10 = 10 * (k0 + 1) := by omega
    rw [deintLoop, e, ih, deintChLoop_apply]
    by_cases h1 : c < 10 ∧ k0 + 1 ≤ j ∧ j < k0 + 1 + n
    · have h2 : c < 10 ∧ k0 ≤ j ∧ j < k0 + (n + 1) := by omega
      rw [if_pos h1, if_pos h2]
    · rw [if_neg h1]
      by_cases h3 : 0 ≤ c ∧ c < 0 + 10 ∧ j = k0
      · have h2 : c < 10 ∧ k0 ≤ j ∧ j < k0 + (n + 1) := by omega
        rw [if_pos h3, if_pos h2]
        congr 1
        omega
      · have h2 : ¬ (c < 10 ∧ k0 ≤ j ∧ j < k0 + (n + 1)) := by omega
        rw [if_neg h3, if_neg h2]

theorem dupDataLoop_stop (f : Nat) (ab : Scratch) (pab : Nat) (na nr : Int) (h : nr ≤ na) :
    dupDataLoop f ab pab na nr = ab := by
  cases f with
  | zero => rfl
  | succ f => rw [dupDataLoop, if_neg (by omega)]

theorem dupDataLoop_apply (m : Nat) :
    ∀ (f : Nat) (ab : Scratch) (pab : Nat) (na nr : Int) (j : Nat),
      m ≤ f → m ≤ 10 → 10 ≤ pab → 0 ≤ na → nr ≤ 2147483647 → na + 4 * m = nr →
      dupDataLoop f ab pab na nr j
        = if 4 * pab ≤ j ∧ j < 4 * (pab + m) then ab (j - 40) else ab j := by
  induction m with
  | zero =>
    intro f ab pab na nr j _ _ _ _ _ hna
    rw [dupDataLoop_stop f ab pab na nr (by omega)]
    have : ¬ (4 * pab ≤ j ∧ j < 4 * (pab + 0)) := by omega
    rw [if_neg this]
  | succ m ih =>
    intro f ab pab na nr j hf hm hp hna0 hnr hna
    obtain ⟨f, rfl⟩ : ∃ g, f = g + 1 := ⟨f - 1, by omega⟩
    have hstep : toInt32 (toSizeT (toSizeT na + sample_size)) = na + 4 := by
      unfold toInt32 toSizeT sample_size; omega
    rw [dupDataLoop, if_pos (by omega), hstep,
      ih f _ (pab + 1) (na + 4) nr j (by omega) (by omega) (by omega) (by omega) hnr (by omega)]
    unfold scratchCopy
    by_cases h1 : 4 * (pab + 1) ≤ j ∧ j < 4 * (pab + 1 + m)
    · have h2 : 4 * pab ≤ j ∧ j < 4 * (pab + (m + 1)) := by omega
      have h3 : ¬ (4 * pab ≤ j - 40 ∧ j - 40 < 4 * pab + 4) := by omega
      rw [if_pos h1, if_pos h2, if_neg h3]
    · rw [if_neg h1]
      by_cases h4 : 4 * pab ≤ j ∧ j < 4 * pab + 4
      · have h2 : 4 * pab ≤ j ∧ j < 4 * (pab + (m + 1)) := by omega
        rw [if_pos h4, if_pos h2]
        congr 1
        omega
      · have h2 : ¬ (4 * pab ≤ j ∧ j < 4 * (pab + (m + 1))) := by omega
        rw [if_neg h4, if_neg h2]

theorem floatAt_eq (l : List Nat) (k : Nat) (h : 4 * k + 4 ≤ l.length) :
    floatAt l k = [l.getD (4 * k) 0, l.getD (4 * k + 1) 0, l.getD (4 * k + 2) 0,
      l.getD (4 * k + 3) 0] := by
  unfold floatAt
  apply List.ext_getElem
  · simp only [List.length_take, List.length_drop, List.length_cons, List.length_nil]
    omega
  · intro n h1 h2
    simp only [List.length_cons, List.length_nil] at h2
    rw [List.getElem_take, List.getElem_drop]
    have h3 : 4 * k + n < l.length := by omega
    interval_cases n
    · have h4 : 4 * k < l.length := by omega
      simp [List.getElem?_eq_getElem h4]
    · simp [List.getElem?_eq_getElem h3]
    · simp [List.getElem?_eq_getElem h3]
    · simp [List.getElem?_eq_getElem h3]

theorem scratchFloat_read (ab : Scratch) (l : List Nat) (k : Nat) (h : 4 * k + 4 ≤ l.length) :
    scratchFloat (scratchRead ab l) k = floatAt l k := by
  rw [floatAt_eq l k h]
  unfold scratchFloat scratchRead
  rw [if_pos (by omega), if_pos (by omega), if_pos (by omega), if_pos (by omega)]

theorem ibNa_cases (i : ProcIn) (hnb : i.nframes * 40 ≤ (i.ib.length : Int)) :
    (i.ibGtHigh = false ∧ i.ibLtLow = true ∧ ibNa i = i.nframes * 40 - 40)
    ∨ (i.ibGtHigh = false ∧ i.ibLtLow = false ∧ ibNa i = i.nframes * 40)
    ∨ (i.ibGtHigh = true ∧ i.nframes * 40 ≤ ibNa i ∧ ibNa i ≤ i.nframes * 40 + 40
        ∧ ibNa i ≤ (i.ib.length : Int)) := by
  unfold ibNa
  cases hg : i.ibGtHigh <;> cases hl : i.ibLtLow <;> simp <;> omega

theorem ib_na_eq (i : ProcIn) (hn0 : 0 ≤ i.nframes) (hn : i.nframes ≤ 1024)
    (hib : (i.ib.length : Int) < 2147483648) (hnb : i.nframes * 40 ≤ (i.ib.length : Int)) :
    (if toInt32 (toSizeT (toSizeT (i.nframes * 40) + toSizeT (toSizeT
          (if i.ibGtHigh = true then (1 : Int) else if i.ibLtLow = true then -1 else 0) * ibframe)))
        > (i.ib.length : Int) then (i.ib.length : Int)
      else toInt32 (toSizeT (toSizeT (i.nframes * 40) + toSizeT (toSizeT
          (if i.ibGtHigh = true then (1 : Int) else if i.ibLtLow = true then -1 else 0) * ibframe))))
      = ibNa i := by
  have hna : ∀ sd : Int, (sd = -1 ∨ sd = 0 ∨ sd = 1) →
      toInt32 (toSizeT (toSizeT (i.nframes * 40) + toSizeT (toSizeT sd * ibframe)))
        = i.nframes * 40 + 40 * sd := by
    intro sd hsd
    unfold toInt32 toSizeT ibframe sample_size
    rcases hsd with h | h | h <;> subst h <;> norm_num <;> omega
  have hsd : ((if i.ibGtHigh = true then (1 : Int) else if i.ibLtLow = true then -1 else 0) = -1
      ∨ (if i.ibGtHigh = true then (1 : Int) else if i.ibLtLow = true then -1 else 0) = 0
      ∨ (if i.ibGtHigh = true then (1 : Int) else if i.ibLtLow = true then -1 else 0) = 1) := by
    split_ifs <;> simp
  rw [hna _ hsd]
  unfold ibNa
  generalize (if i.ibGtHigh = true then (1 : Int) else if i.ibLtLow = true then -1 else 0) = sd
  split_ifs <;> omega

theorem jackIbHalf_fields (i : ProcIn) (hn0 : 0 ≤ i.nframes) (hn : i.nframes ≤ 1024)
    (hib : (i.ib.length : Int) < 2147483648) (hnb : i.nframes * 40 ≤ (i.ib.length : Int))
    (hpos : 0 < ibNa i) :
    (jackIbHalf i).bytesRead = i.ib.take (ibNa i).toNat
    ∧ (jackIbHalf i).ibadd
        = (dupLoop (i.nframes * 40 - ibNa i).toNat (ibNa i) (i.nframes * 40) i.ibadd).2 := by
  have hnbv : toInt32 (jack_ringbuffer_read_space i.ib) = (i.ib.length : Int) := by
    unfold toInt32 jack_ringbuffer_read_space; omega
  have hnr : toInt32 (toSizeT (i.nframes * ibframe)) = i.nframes * 40 := by
    unfold toInt32 toSizeT ibframe sample_size; omega
  unfold jackIbHalf
  simp only [hnbv, hnr, not_lt.mpr hnb, if_false, ib_na_eq i hn0 hn hib hnb, gt_iff_lt, hpos,
    if_true, jack_ringbuffer_read, and_self]

theorem jack_process_ports_eq (i : ProcIn) (ab : Scratch) (out : Ports) (hrun : i.running ≠ 0)
    (hn0 : 0 ≤ i.nframes) (hn : i.nframes ≤ 1024)
    (hib : (i.ib.length : Int) < 2147483648) (hnb : i.nframes * 40 ≤ (i.ib.length : Int))
    (hpos : 0 < ibNa i) :
    jack_process_ports i ab out
      = deintLoop (dupDataLoop (i.nframes * 40 - ibNa i).toNat
          (scratchRead ab (i.ib.take (ibNa i).toNat)) (toSizeT (ibNa i) / sample_size).toNat
          (ibNa i) (i.nframes * 40)) i.nframes.toNat 0 0 out := by
  have hnbv : toInt32 (jack_ringbuffer_read_space i.ib) = (i.ib.length : Int) := by
    unfold toInt32 jack_ringbuffer_read_space; omega
  have hnr : toInt32 (toSizeT (i.nframes * ibframe)) = i.nframes * 40 := by
    unfold toInt32 toSizeT ibframe sample_size; omega
  unfold jack_process_ports
  simp only [hrun, not_lt.mpr hn, hnbv, hnr, not_lt.mpr hnb, if_false,
    ib_na_eq i hn0 hn hib hnb, gt_iff_lt, hpos, if_true, jack_ringbuffer_read]

theorem dupLoop_stop (f : Nat) (na nr c : Int) (h : nr ≤ na) : dupLoop f na nr c = (na, c) := by
  cases f with
  | zero => rfl
  | succ f => rw [dupLoop, if_neg (by omega)]

theorem dupLoop_count (m : Nat) :
    ∀ (f : Nat) (na nr c : Int),
      m ≤ f → 0 ≤ na → nr ≤ 2147483647 → na + 4 * m = nr →
      -9223372036854775808 ≤ c → c + m < 9223372036854775808 →
      dupLoop f na nr c = (nr, c + m) := by
  induction m with
  | zero =>
    intro f na nr c _ _ _ hna _ _
    rw [dupLoop_stop f na nr c (by omega)]
    simp
    omega
  | succ m ih =>
    intro f na nr c hf hna0 hnr hna hc0 hc
    obtain ⟨f, rfl⟩ : ∃ g, f = g + 1 := ⟨f - 1, by omega⟩
    have hstep : toInt32 (toSizeT (toSizeT na + sample_size)) = na + 4 := by
      unfold toInt32 toSizeT sample_size; omega
    have hc1 : toInt64 (c + 1) = c + 1 := by
      unfold toInt64; omega
    rw [dupLoop, if_pos (by omega), hstep, hc1,
      ih f (na + 4) nr (c + 1) (by omega) (by omega) hnr (by omega) (by omega) (by omega)]
    simp
    omega

theorem scratchFloat_same (f g : Scratch) (idx : Nat)
    (h : ∀ b, 4 * idx ≤ b → b < 4 * idx + 4 → f b = g b) :
    scratchFloat f idx = scratchFloat g idx := by
  unfold scratchFloat
  rw [h (4 * idx) (by omega) (by omega), h (4 * idx + 1) (by omega) (by omega),
    h (4 * idx + 2) (by omega) (by omega), h (4 * idx + 3) (by omega) (by omega)]

theorem scratchFloat_shift (f g : Scratch) (idx : Nat) (hidx : 10 ≤ idx)
    (h : ∀ b, 4 * idx ≤ b → b < 4 * idx + 4 → f b = g (b - 40)) :
    scratchFloat f idx = scratchFloat g (idx - 10) := by
  unfold scratchFloat
  rw [h (4 * idx) (by omega) (by omega), h (4 * idx + 1) (by omega) (by omega),
    h (4 * idx + 2) (by omega) (by omega), h (4 * idx + 3) (by omega) (by omega)]
  have e0 : 4 * idx - 40 = 4 * (idx - 10) := by omega
  have e1 : 4 * idx + 1 - 40 = 4 * (idx - 10) + 1 := by omega
  have e2 : 4 * idx + 2 - 40 = 4 * (idx - 10) + 2 := by omega
  have e3 : 4 * idx + 3 - 40 = 4 * (idx - 10) + 3 := by omega
  rw [e0, e1, e2, e3]

theorem ports_short (ab : Scratch) (out : Ports) (l : List Nat) (n f : Nat)
    (hn2 : 2 ≤ n) (hn : n ≤ 1024) (hl : l.length = 40 * (n - 1)) (hf : 10 ≤ f) (c j : Nat) :
    deintLoop (dupDataLoop f (scratchRead ab l) (10 * (n - 1)) (40 * (n : Int) - 40) (40 * n))
        n 0 0 out c j
      = if c < 10 ∧ j < n then
          (if j < n - 1 then floatAt l (10 * j + c) else floatAt l (10 * (n - 2) + c))
        else out c j := by
  have h := deintLoop_apply (dupDataLoop f (scratchRead ab l) (10 * (n - 1))
    (40 * (n : Int) - 40) (40 * n)) n 0 out c j
  simp only [Nat.mul_zero, Nat.zero_add, Nat.zero_le, true_and] at h
  rw [h]
  by_cases hcj : c < 10 ∧ j < n
  · rw [if_pos hcj, if_pos hcj]
    have hd : ∀ b, dupDataLoop f (scratchRead ab l) (10 * (n - 1)) (40 * (n : Int) - 40)
        (40 * n) b
        = if 4 * (10 * (n - 1)) ≤ b ∧ b < 4 * (10 * (n - 1) + 10)
          then scratchRead ab l (b - 40) else scratchRead ab l b := by
      intro b
      exact dupDataLoop_apply 10 f _ _ _ _ b hf (by omega) (by omega) (by omega) (by omega)
        (by push_cast; omega)
    by_cases hj : j < n - 1
    · rw [if_pos hj]
      rw [scratchFloat_same _ (scratchRead ab l) (10 * j + c)
        (fun b h1 h2 => by rw [hd b, if_neg (by omega)])]
      exact scratchFloat_read ab l _ (by omega)
    · rw [if_neg hj]
      rw [scratchFloat_shift _ (scratchRead ab l) (10 * j + c) (by omega)
        (fun b h1 h2 => by rw [hd b, if_pos (by omega)])]
      have e : 10 * j + c - 10 = 10 * (n - 2) + c := by omega
      rw [e]
      exact scratchFloat_read ab l _ (by omega)
  · rw [if_neg hcj, if_neg hcj]

theorem ports_full (ab : Scratch) (out : Ports) (l : List Nat) (n f p : Nat) (na : Int)
    (hl : 40 * n ≤ l.length) (hna : 40 * (n : Int) ≤ na) (c j : Nat) :
    deintLoop (dupDataLoop f (scratchRead ab l) p na (40 * n)) n 0 0 out c j
      = if c < 10 ∧ j < n then floatAt l (10 * j + c) else out c j := by
  rw [dupDataLoop_stop f _ p na _ hna]
  have h := deintLoop_apply (scratchRead ab l) n 0 out c j
  simp only [Nat.mul_zero, Nat.zero_add, Nat.zero_le, true_and] at h
  rw [h]
  by_cases hcj : c < 10 ∧ j < n
  · rw [if_pos hcj, if_pos hcj]
    exact scratchFloat_read ab l _ (by omega)
  · rw [if_neg hcj, if_neg hcj]

/-! ## The claims -/

/-- C1: for every accumulator value, `cb_out` on a non-cancelled playback transfer whose
packets 0..38 are 72 bytes long takes `sd` as the sign of `outDelta/3` (truncating
division, so `sd = 0` exactly when `|outDelta| ≤ 2`), sets the transfer length to
`2880 + 6*sd`, one of 2874, 2880, 2886, sets packet 39 to `72 + 6*sd`, one of 66, 72, 78,
leaves packets 0..38 at 72, and the 40 packet lengths sum to the transfer length,
which is `480 + sd` frames of 6 bytes. -/
theorem cb_out_sizing (scale : List Nat → Int) (s : OutState)
    (hst : s.transfer.status ≠ TransferStatus.cancelled)
    (hlen : s.transfer.packets.length = 40)
    (h72 : ∀ i, i < 39 → s.transfer.packets.getD i 0 = 72) :
    cbOutSd s.outDelta = Int.sign (Int.tdiv s.outDelta 3)
    ∧ (cbOutSd s.outDelta = 0 ↔ |s.outDelta| ≤ 2)
    ∧ (cb_out scale s).transfer.length = 2880 + 6 * cbOutSd s.outDelta
    ∧ ((cb_out scale s).transfer.length = 2874 ∨ (cb_out scale s).transfer.length = 2880
        ∨ (cb_out scale s).transfer.length = 2886)
    ∧ (cb_out scale s).transfer.packets.getD 39 0 = 72 + 6 * cbOutSd s.outDelta
    ∧ ((cb_out scale s).transfer.packets.getD 39 0 = 66
        ∨ (cb_out scale s).transfer.packets.getD 39 0 = 72
        ∨ (cb_out scale s).transfer.packets.getD 39 0 = 78)
    ∧ (cb_out scale s).transfer.packets.length = 40
    ∧ (∀ i, i < 39 → (cb_out scale s).transfer.packets.getD i 0 = 72)
    ∧ (cb_out scale s).transfer.packets.sum = (cb_out scale s).transfer.length
    ∧ (cb_out scale s).transfer.length = (480 + cbOutSd s.outDelta) * 6 := by
  have hL := cb_out_transfer_length scale s hst
  have hP := cb_out_transfer_packets scale s hst
  rw [packets_shape _ hlen h72] at hP
  have hsd := cbOutSd_cases s.outDelta
  have h39 : (cb_out scale s).transfer.packets.getD 39 0
      = toUInt32 (72 + cbOutSd s.outDelta * 6) := by
    rw [hP]; simp
  have hu : toUInt32 (72 + cbOutSd s.outDelta * 6) = 72 + cbOutSd s.outDelta * 6 := by
    unfold toUInt32
    rcases hsd with h | h | h <;> rw [h.1] <;> norm_num
  refine ⟨cbOutSd_eq_sign _, ?_, ?_, ?_, ?_, ?_, ?_, ?_, ?_, ?_⟩
  · rw [abs_le]; omega
  · rw [hL]; ring
  · rw [hL]; omega
  · rw [h39, hu]; ring
  · rw [h39, hu]; omega
  · rw [hP]; simp
  · intro i hi
    have hi2 : i < (List.replicate 39 (72 : Int)).length := by
      rw [List.length_replicate]; exact hi
    rw [hP, List.getD_eq_getElem _ 0 (by rw [List.length_append]; omega)]
    rw [List.getElem_append_left hi2, List.getElem_replicate]
  · rw [hP, hL, hu]
    simp
    ring
  · rw [hL]; ring

/-- Witness for C1: a freshly armed playback transfer with `outDelta = 5` and an empty
ring is resized to 2886 bytes with a last packet of 78 bytes. -/
theorem cb_out_sizing_witness :
    outEmptyRing.transfer.status ≠ TransferStatus.cancelled
    ∧ outEmptyRing.transfer.packets.length = 40
    ∧ (∀ i, i < 39 → outEmptyRing.transfer.packets.getD i 0 = 72)
    ∧ cbOutSd outEmptyRing.outDelta = 1
    ∧ (cb_out (fun _ => 0) outEmptyRing).transfer.length = 2886
    ∧ (cb_out (fun _ => 0) outEmptyRing).transfer.packets.getD 39 0 = 78
    ∧ (cb_out (fun _ => 0) outEmptyRing).transfer.packets.sum = 2886 := by
  have h := cb_out_sizing (fun _ => 0) outEmptyRing (by decide) (by decide) (by decide)
  have hsd : cbOutSd outEmptyRing.outDelta = 1 := by decide
  simp only [hsd] at h
  obtain ⟨-, -, h3, -, h5, -, -, -, h9, -⟩ := h
  exact ⟨by decide, by decide, by decide, hsd, h3, h5, h9.trans h3⟩

/-- C2: for every completed capture transfer, every processed row `r` and every
channel `c < 5`, the integer from which `bulk_in` forms decoded sample `5*r + c` is
`256 * v`, where `v` is the two's complement value of the 24-bit pattern whose bit
`23 - b` is bit `c` of buffer byte `32*r + b` for `b < 24`.  Hence the result is the
same for any buffer that agrees with this one on bits 0..4 of the 24 payload bytes of
row `r` (bits 5..7 and the padding bytes `32*r + 24 .. 32*r + 31` do not matter), and
sample `5*r + c` is channel `5*(r mod 2) + c` of the ten-channel frame `r / 2`. -/
theorem bulk_in_demux (done ws : Int) (t : Transfer) (r c : Nat)
    (hst : t.status = TransferStatus.completed)
    (hr : (r : Int) < (bulk_in done ws t).rows) (hc : c < 5) :
    (∃ u : Nat, u < 16777216
      ∧ (∀ b, b < 24 → u.testBit (23 - b) = (t.buffer.getD (32 * r + b) 0).testBit c)
      ∧ (bulk_in done ws t).a.getD (5 * r + c) 0 = 256 * toInt24 u)
    ∧ (∀ t2 : Transfer, t2.status = TransferStatus.completed →
        (∀ b, b < 24 → t2.buffer.getD (32 * r + b) 0 % 32 = t.buffer.getD (32 * r + b) 0 % 32) →
        (bulk_in done ws t2).a.getD (5 * r + c) 0 = (bulk_in done ws t).a.getD (5 * r + c) 0)
    ∧ 5 * r + c = 10 * (r / 2) + (5 * (r % 2) + c) ∧ 5 * (r % 2) + c < 10 := by
  rw [bulk_in_completed done ws t hst] at hr ⊢
  simp only at hr ⊢
  have hr2 : r < (bulkRows ws).toNat := by omega
  have hidx : ∀ buf : List Nat, (rowLoop buf (bulkRows ws).toNat 0).getD (5 * r + c) 0
      = shl8 (chanFold buf c 24 (32 * r) 0) := by
    intro buf
    rw [rowLoop_getD buf _ 0 r c hr2 hc, Nat.zero_add]
  obtain ⟨h1, h2⟩ := chanFold_row t.buffer c (32 * r) hc
  refine ⟨⟨chanFold t.buffer c 24 (32 * r) 0, h1, h2, ?_⟩, ?_, by omega, by omega⟩
  · rw [hidx, shl8_eq _ h1]
  · intro t2 hst2 hb
    rw [bulk_in_completed done ws t2 hst2]
    simp only
    rw [hidx, hidx, chanFold_congr t.buffer t2.buffer c (32 * r) hc hb]

/-- Witness for C2: row 0, channel 0 of the two-row transfer, with 100 bytes free in IB. -/
theorem bulk_in_demux_witness :
    bulkTwoRows.status = TransferStatus.completed
    ∧ ((0 : Nat) : Int) < (bulk_in 0 100 bulkTwoRows).rows
    ∧ (bulk_in 0 100 bulkTwoRows).a.getD 0 0 = -2147483392
    ∧ ∃ u : Nat, u < 16777216
      ∧ (∀ b, b < 24 → u.testBit (23 - b) = (bulkTwoRows.buffer.getD (32 * 0 + b) 0).testBit 0)
      ∧ (bulk_in 0 100 bulkTwoRows).a.getD (5 * 0 + 0) 0 = 256 * toInt24 u :=
  ⟨by decide, by decide, by decide,
    (bulk_in_demux 0 100 bulkTwoRows 0 0 (by decide) (by decide) (by decide)).1⟩

/-- C3 as stated fails: for the sample integer 1 the claim gives the bytes 1, 0, 0 (the
low three bytes), while `cb_out` stores 0, 0, 0. -/
theorem cb_out_low_bytes_counterexample :
    encodeSample 1 = [0, 0, 0]
    ∧ encodeSample 1
      ≠ [((1 : Int) % 256).toNat, (((1 : Int) >>> (8 : Nat)) % 256).toNat,
          (((1 : Int) >>> (16 : Nat)) % 256).toNat] := by
  decide

/-- C3, amended: for every sample integer `s` the three bytes `cb_out` stores are
`(s >> 8) & 0xff`, `(s >> 16) & 0xff`, `(s >> 24) & 0xff`, the upper three bytes of `s`
in little-endian order (the shift precedes the mask in each pass); and the payload
written for `n` frames is the concatenation of these triples over the `2*n` samples of
the scratch array in order. -/
theorem cb_out_sample_bytes (scale : List Nat → Int) (ab : List Nat) (n p : Nat) (s : Int) :
    encodeSample s
      = [((s >>> (8 : Nat)) % 256).toNat, ((s >>> (16 : Nat)) % 256).toNat,
          ((s >>> (24 : Nat)) % 256).toNat]
    ∧ transcodeLoop scale ab n p
      = (List.range (2 * n)).flatMap (fun k => encodeSample (scale (floatAt ab (p + k)))) :=
  ⟨encodeSample_bytes s, transcodeLoop_flatMap scale ab n p⟩

/-- C4: for every 32-bit signed integer `s`, the three bytes `b0, b1, b2` the playback
encoder emits satisfy `b0 + 256*b1 + 65536*b2 = (s >> 8) & 0xFFFFFF`; the decoder's
conversion `<< 8` of that 24-bit value gives `s` with its low 8 bits cleared, so the
round trip is at most `s` and less than 256 below it. -/
theorem encode_decode_roundtrip (s : Int) (hlo : -2147483648 ≤ s) (hhi : s < 2147483648) :
    ∃ b0 b1 b2 : Nat, encodeSample s = [b0, b1, b2]
      ∧ ((b0 + 256 * b1 + 65536 * b2 : Nat) : Int) = (s >>> (8 : Nat)) % 16777216
      ∧ shl8 (b0 + 256 * b1 + 65536 * b2) = s - s % 256
      ∧ 0 ≤ s - shl8 (b0 + 256 * b1 + 65536 * b2)
      ∧ s - shl8 (b0 + 256 * b1 + 65536 * b2) < 256 := by
  refine ⟨_, _, _, encodeSample_bytes s, ?_⟩
  have key : ((((s >>> (8 : Nat)) % 256).toNat + 256 * ((s >>> (16 : Nat)) % 256).toNat
      + 65536 * ((s >>> (24 : Nat)) % 256).toNat : Nat) : Int)
        = (s >>> (8 : Nat)) % 16777216 := by
    simp only [Int.shiftRight_eq_div_pow]
    norm_num
    omega
  have hlt : (((s >>> (8 : Nat)) % 256).toNat + 256 * ((s >>> (16 : Nat)) % 256).toNat
      + 65536 * ((s >>> (24 : Nat)) % 256).toNat) < 16777216 := by
    omega
  refine ⟨key, ?_⟩
  rw [shl8_eq _ hlt]
  have k2 : (s >>> (8 : Nat)) = s / 256 := by
    simp only [Int.shiftRight_eq_div_pow]; norm_num
  rw [k2] at key
  unfold toInt24
  split <;> omega

/-- Witness for C4: the sample integer `-1000`. -/
theorem encode_decode_roundtrip_witness :
    (-2147483648 : Int) ≤ -1000 ∧ (-1000 : Int) < 2147483648
    ∧ encodeSample (-1000) = [252, 255, 255]
    ∧ shl8 (252 + 256 * 255 + 65536 * 255) = -1024
    ∧ ∃ b0 b1 b2 : Nat, encodeSample (-1000) = [b0, b1, b2]
      ∧ ((b0 + 256 * b1 + 65536 * b2 : Nat) : Int) = ((-1000 : Int) >>> (8 : Nat)) % 16777216
      ∧ shl8 (b0 + 256 * b1 + 65536 * b2) = -1000 - (-1000) % 256
      ∧ 0 ≤ -1000 - shl8 (b0 + 256 * b1 + 65536 * b2)
      ∧ -1000 - shl8 (b0 + 256 * b1 + 65536 * b2) < 256 :=
  ⟨by decide, by decide, by decide, by decide,
    encode_decode_roundtrip (-1000) (by decide) (by decide)⟩

/-- C5 as stated fails: with the accumulator at `-2^31` and six zero bytes (sum 0, below
576) the 32-bit sum wraps and the accumulator becomes `2147483072`, which is not below
its prior value. -/
theorem fb_in_wraps_counterexample :
    fbByteSum fbZeroTransfer.buffer < 576
    ∧ fb_in (-2147483648) fbZeroTransfer = 2147483072
    ∧ ¬ (fb_in (-2147483648) fbZeroTransfer < -2147483648) := by
  decide

/-- C5, amended: for every prior accumulator value `d` (an `int`) and every feedback
transfer, a non-cancelled transfer leaves the accumulator at `d + sum - 576` in 32-bit
two's complement arithmetic, where `sum` is the sum of the six bytes read as unsigned
values; the accumulator is unchanged exactly when `sum = 576`, and it decreases when
`sum < 576` provided `d + sum - 576 ≥ -2^31` (no wrap-around); a cancelled transfer
leaves the accumulator unchanged. -/
theorem fb_in_accumulate (d : Int) (t : Transfer)
    (hlo : -2147483648 ≤ d) (hhi : d < 2147483648) :
    (t.status ≠ TransferStatus.cancelled →
        fb_in d t = toInt32 (d + fbByteSum t.buffer - 576)
        ∧ (fb_in d t = d ↔ fbByteSum t.buffer = 576)
        ∧ (fbByteSum t.buffer < 576 → -2147483648 ≤ d + fbByteSum t.buffer - 576 →
            fb_in d t < d))
    ∧ (t.status = TransferStatus.cancelled → fb_in d t = d) := by
  constructor
  · intro hst
    have hs := fbByteSum_range t.buffer
    rw [fb_in_eq d t hst]
    refine ⟨rfl, ?_, ?_⟩
    · unfold toInt32; omega
    · unfold toInt32; omega
  · intro hst
    unfold fb_in
    simp [hst]

/-- Witness for C5: with the accumulator at 10 and six bytes of 95 (sum 570) the
accumulator becomes 4. -/
theorem fb_in_accumulate_witness :
    (-2147483648 : Int) ≤ 10 ∧ (10 : Int) < 2147483648
    ∧ fbSlowTransfer.status ≠ TransferStatus.cancelled
    ∧ fbByteSum fbSlowTransfer.buffer < 576
    ∧ -2147483648 ≤ 10 + fbByteSum fbSlowTransfer.buffer - 576
    ∧ fb_in 10 fbSlowTransfer = 4
    ∧ fb_in 10 fbSlowTransfer < 10 :=
  ⟨by decide, by decide, by decide, by decide, by decide, by decide,
    ((fb_in_accumulate 10 fbSlowTransfer (by decide) (by decide)).1 (by decide)).2.2
      (by decide) (by decide)⟩

/-- C6: for every accumulator value and every RB occupancy (below `2^31`), `cb_out` on a
non-cancelled transfer either finds fewer than `(480 + sd) * 8` bytes in RB, and then
zeroes all `length` payload bytes and leaves RB untouched, or removes exactly the first
`(480 + sd) * 8` bytes from RB and writes exactly `(480 + sd) * 6 = length` payload
bytes, the transcoding of the bytes removed; there is no partial fill. -/
theorem cb_out_underrun (scale : List Nat → Int) (s : OutState)
    (hst : s.transfer.status ≠ TransferStatus.cancelled)
    (hrb : (s.rb.length : Int) < 2147483648) :
    ((s.rb.length : Int) < (480 + cbOutSd s.outDelta) * 8 →
        (cb_out scale s).rb = s.rb
        ∧ (cb_out scale s).transfer.buffer
            = List.replicate (cb_out scale s).transfer.length.toNat 0
                ++ s.transfer.buffer.drop (cb_out scale s).transfer.length.toNat
        ∧ ∀ k : Nat, (k : Int) < (cb_out scale s).transfer.length →
            (cb_out scale s).transfer.buffer[k]? = some 0)
    ∧ ((480 + cbOutSd s.outDelta) * 8 ≤ (s.rb.length : Int) →
        (cb_out scale s).rb = s.rb.drop ((480 + cbOutSd s.outDelta) * 8).toNat
        ∧ ((cb_out scale s).rb.length : Int) + (480 + cbOutSd s.outDelta) * 8 = s.rb.length
        ∧ ((transcodeLoop scale (s.rb.take ((480 + cbOutSd s.outDelta) * 8).toNat)
              (480 + cbOutSd s.outDelta).toNat 0).length : Int)
            = (480 + cbOutSd s.outDelta) * 6
        ∧ (480 + cbOutSd s.outDelta) * 6 = (cb_out scale s).transfer.length
        ∧ (cb_out scale s).transfer.buffer
            = transcodeLoop scale (s.rb.take ((480 + cbOutSd s.outDelta) * 8).toNat)
                (480 + cbOutSd s.outDelta).toNat 0
              ++ s.transfer.buffer.drop ((480 + cbOutSd s.outDelta) * 6).toNat) := by
  have hnr := cb_out_nr s.outDelta
  have hsd := cbOutSd_cases s.outDelta
  have hnb : toInt32 (jack_ringbuffer_read_space s.rb) = (s.rb.length : Int) := by
    unfold toInt32 jack_ringbuffer_read_space; omega
  constructor
  · intro hlt
    have hcb : cb_out scale s =
        { outDelta := if cbOutSd s.outDelta ≠ 0 then 0 else s.outDelta
          rb := s.rb
          transfer :=
            { status := s.transfer.status
              length := 2880 + cbOutSd s.outDelta * 6
              packets := s.transfer.packets.set 39 (toUInt32 (72 + cbOutSd s.outDelta * 6))
              buffer := memsetZero s.transfer.buffer (2880 + cbOutSd s.outDelta * 6) } } := by
      unfold cb_out
      simp only [hst, ne_eq, not_false_eq_true, if_true, hnr, hnb, hlt, gt_iff_lt,
        lt_self_iff_false, if_false]
    rw [hcb]
    refine ⟨rfl, rfl, ?_⟩
    intro k hk
    simp only [memsetZero] at hk ⊢
    have hk2 : k < (2880 + cbOutSd s.outDelta * 6).toNat := by omega
    rw [List.getElem?_append_left (by rw [List.length_replicate]; exact hk2)]
    rw [List.getElem?_replicate]
    simp [hk2]
  · intro hge
    have hpos : (480 + cbOutSd s.outDelta) * 8 > 0 := by omega
    have hnlt : ¬ ((s.rb.length : Int) < (480 + cbOutSd s.outDelta) * 8) := by omega
    have hcb : cb_out scale s =
        { outDelta := if cbOutSd s.outDelta ≠ 0 then 0 else s.outDelta
          rb := s.rb.drop ((480 + cbOutSd s.outDelta) * 8).toNat
          transfer :=
            { status := s.transfer.status
              length := 2880 + cbOutSd s.outDelta * 6
              packets := s.transfer.packets.set 39 (toUInt32 (72 + cbOutSd s.outDelta * 6))
              buffer := storeBytes s.transfer.buffer
                (transcodeLoop scale (s.rb.take ((480 + cbOutSd s.outDelta) * 8).toNat)
                  (480 + cbOutSd s.outDelta).toNat 0) } } := by
      unfold cb_out
      simp only [hst, ne_eq, not_false_eq_true, if_true, hnr, hnb, hnlt, gt_iff_lt, hpos,
        if_false, jack_ringbuffer_read]
    have hlen6 : ((transcodeLoop scale (s.rb.take ((480 + cbOutSd s.outDelta) * 8).toNat)
        (480 + cbOutSd s.outDelta).toNat 0).length : Int) = (480 + cbOutSd s.outDelta) * 6 := by
      rw [transcodeLoop_length]; omega
    have hlen6n : (transcodeLoop scale (s.rb.take ((480 + cbOutSd s.outDelta) * 8).toNat)
        (480 + cbOutSd s.outDelta).toNat 0).length = ((480 + cbOutSd s.outDelta) * 6).toNat := by
      omega
    rw [hcb]
    refine ⟨rfl, ?_, hlen6, ?_, ?_⟩
    · simp only [List.length_drop]
      omega
    · simp only; omega
    · simp only [storeBytes, hlen6n]

/-- Witness for C6: with the accumulator at 5 (`sd = 1`, 3848 bytes needed), an empty
ring gives silence and a ring holding 3848 bytes is drained. -/
theorem cb_out_underrun_witness :
    outEmptyRing.transfer.status ≠ TransferStatus.cancelled
    ∧ (outEmptyRing.rb.length : Int) < 2147483648
    ∧ (outEmptyRing.rb.length : Int) < (480 + cbOutSd outEmptyRing.outDelta) * 8
    ∧ (cb_out (fun _ => 0) outEmptyRing).rb = outEmptyRing.rb
    ∧ (480 + cbOutSd outFullRing.outDelta) * 8 ≤ (outFullRing.rb.length : Int)
    ∧ ((cb_out (fun _ => 0) outFullRing).rb.length : Int)
        + (480 + cbOutSd outFullRing.outDelta) * 8 = outFullRing.rb.length := by
  have hlenF : outFullRing.rb.length = 3848 := by
    simp only [outFullRing, List.length_replicate]
  have hsdF : cbOutSd outFullRing.outDelta = 1 := by decide
  have hE := cb_out_underrun (fun _ => 0) outEmptyRing (by decide) (by decide)
  have hF := cb_out_underrun (fun _ => 0) outFullRing (by decide)
    (by rw [hlenF]; norm_num)
  have hgeF : (480 + cbOutSd outFullRing.outDelta) * 8 ≤ (outFullRing.rb.length : Int) := by
    rw [hlenF, hsdF]; norm_num
  exact ⟨by decide, by decide, by decide, (hE.1 (by decide)).1, hgeF, (hF.2 hgeF).2.1⟩

/-- C7: for every IB free-space value `ws` (a byte count below `2^32`), `bulk_in` on a
completed transfer processes `min (4096, 2 * floor (ws / 40))` rows; the count is even
and at most 4096; the byte count enqueued is `20 * rows`, a whole number of 40-byte
frames that does not exceed `ws`, so the ring write is not short and `done` is not
set; and all 4096 rows, that is 20480 decoded samples, are processed exactly when
`ws ≥ 81920`. -/
theorem bulk_in_precheck (done ws : Int) (t : Transfer)
    (hst : t.status = TransferStatus.completed) (h0 : 0 ≤ ws) (h1 : ws < 4294967296) :
    (bulk_in done ws t).rows = min 4096 (2 * (ws / 40))
    ∧ (bulk_in done ws t).rows % 2 = 0
    ∧ 0 ≤ (bulk_in done ws t).rows
    ∧ (bulk_in done ws t).rows ≤ 4096
    ∧ (bulk_in done ws t).requested = 20 * (bulk_in done ws t).rows
    ∧ (bulk_in done ws t).requested = 40 * ((bulk_in done ws t).rows / 2)
    ∧ (bulk_in done ws t).requested ≤ ws
    ∧ (bulk_in done ws t).written = (bulk_in done ws t).requested
    ∧ (bulk_in done ws t).done = done
    ∧ ((bulk_in done ws t).a.length : Int) = 5 * (bulk_in done ws t).rows
    ∧ ((bulk_in done ws t).rows = 4096 ↔ 81920 ≤ ws)
    ∧ ((bulk_in done ws t).a.length = 20480 ↔ 81920 ≤ ws) := by
  have hrows := bulkRows_eq ws h0 h1
  have hq : 0 ≤ ws / 40 := by omega
  have hr0 : 0 ≤ bulkRows ws := by rw [hrows]; omega
  have hr1 : bulkRows ws ≤ 4096 := by rw [hrows]; omega
  have hreq : toSizeT (toSizeT (5 * bulkRows ws) * sample_size) = 20 * bulkRows ws := by
    unfold toSizeT sample_size; omega
  have hle : 20 * bulkRows ws ≤ ws := by rw [hrows]; omega
  have hw : jack_ringbuffer_write ws (20 * bulkRows ws) = 20 * bulkRows ws := by
    unfold jack_ringbuffer_write toSizeT
    have : (20 * bulkRows ws) % 18446744073709551616 = 20 * bulkRows ws := by omega
    rw [this, if_neg (by omega)]
  rw [bulk_in_completed done ws t hst]
  simp only [hreq, hw, lt_self_iff_false, if_false, rowLoop_length]
  refine ⟨hrows, ?_, hr0, hr1, trivial, ?_, hle, trivial, trivial, ?_, ?_, ?_⟩
  · rw [hrows]; omega
  · rw [hrows]; omega
  · push_cast; omega
  · rw [hrows]; omega
  · rw [hrows]; omega

/-- Witness for C7: with exactly 81920 bytes free, all 4096 rows are processed and
81920 bytes are enqueued; with 81919 bytes free, 4094 rows are. -/
theorem bulk_in_precheck_witness :
    bulkTwoRows.status = TransferStatus.completed
    ∧ (0 : Int) ≤ 81920 ∧ (81920 : Int) < 4294967296
    ∧ (bulk_in 0 81920 bulkTwoRows).rows = 4096
    ∧ (bulk_in 0 81920 bulkTwoRows).requested = 81920
    ∧ (bulk_in 0 81920 bulkTwoRows).written = 81920
    ∧ (bulk_in 0 81919 bulkTwoRows).rows = 4094 := by
  have h := bulk_in_precheck 0 81920 bulkTwoRows (by decide) (by decide) (by decide)
  have g := bulk_in_precheck 0 81919 bulkTwoRows (by decide) (by decide) (by decide)
  obtain ⟨h1, -, -, -, h5, -, -, h8, -⟩ := h
  have hr : (bulk_in 0 81920 bulkTwoRows).rows = 4096 := by rw [h1]; decide
  have hq : (bulk_in 0 81920 bulkTwoRows).requested = 81920 := by rw [h5, hr]; decide
  exact ⟨by decide, by decide, by decide, hr, hq, by rw [h8, hq], by rw [g.1]; decide⟩

/-- C8, the code at the failing input: in a cycle of 1024 frames (`nr = 8192`) with
8199 bytes free in RB, which cannot hold `nr + 8 = 8200` bytes, and the average below
the low deadband edge, `jack_process` does not take the overrun branch (its test is
`nr + 1 > free`), asks the ring to store 8200 bytes, stores 8199, and returns 1
through the partial-write branch. -/
theorem jack_process_precheck_gap :
    gapCycle.rbWriteSpace < gapCycle.nframes * 8 + 8
    ∧ (jack_process gapCycle).processed = true
    ∧ (jack_process gapCycle).rbHalf.overrun = false
    ∧ (jack_process gapCycle).rbHalf.rbavg = 81
    ∧ (jack_process gapCycle).rbHalf.requested = 8200
    ∧ (jack_process gapCycle).rbHalf.written = 8199
    ∧ (jack_process gapCycle).ret = 1 := by
  decide

/-- C9: for every processed host cycle with `0 ≤ nframes ≤ 1024` and IB occupancy
`nb ≥ nr = nframes * 40` (`nb` below `2^31`), the number of bytes `jack_process` reads
from IB differs from `nr` by at most 40 and does not exceed `nb`; those bytes leave IB. -/
theorem jack_process_ib_read (i : ProcIn) (hrun : i.running ≠ 0)
    (hn0 : 0 ≤ i.nframes) (hn : i.nframes ≤ 1024)
    (hib : (i.ib.length : Int) < 2147483648) (hnb : i.nframes * 40 ≤ (i.ib.length : Int)) :
    |((jack_process i).ibHalf.bytesRead.length : Int) - i.nframes * 40| ≤ 40
    ∧ (jack_process i).ibHalf.bytesRead.length ≤ i.ib.length
    ∧ (jack_process i).ibHalf.ib.length + (jack_process i).ibHalf.bytesRead.length
        = i.ib.length := by
  rw [jack_process_running i hrun hn]
  dsimp only
  obtain ⟨h1, h2, h3, h4⟩ := jackIbHalf_read i hn0 hn hib hnb
  refine ⟨?_, h3, h4⟩
  rw [abs_le]
  constructor <;> omega

/-- Witness for C9: a cycle of 64 frames (2560 bytes) with 4000 bytes in IB and the
average below the low edge reads 2520 bytes. -/
theorem jack_process_ib_read_witness :
    steadyCycle.running ≠ 0 ∧ 0 ≤ steadyCycle.nframes ∧ steadyCycle.nframes ≤ 1024
    ∧ steadyCycle.nframes * 40 ≤ (steadyCycle.ib.length : Int)
    ∧ |((jack_process steadyCycle).ibHalf.bytesRead.length : Int) - steadyCycle.nframes * 40|
        ≤ 40
    ∧ (jack_process steadyCycle).ibHalf.bytesRead.length ≤ steadyCycle.ib.length := by
  have hlen : steadyCycle.ib.length = 4000 := by
    simp only [steadyCycle, List.length_replicate]
  have hnb : steadyCycle.nframes * 40 ≤ (steadyCycle.ib.length : Int) := by
    rw [hlen]; decide
  have h := jack_process_ib_read steadyCycle (by decide) (by decide) (by decide)
    (by rw [hlen]; norm_num) hnb
  exact ⟨by decide, by decide, by decide, hnb, h.1, h.2.1⟩

/-- C10 as stated fails: in an overrun cycle of 1024 frames (`nr = 8192`, no free space)
nothing is written to RB, and in a cycle of zero frames with the average above the high
edge the requested count `-8` becomes a huge `size_t` and all 100 free bytes are
written; both differ from `nr` by more than 8. -/
theorem jack_process_rb_written_counterexample :
    overrunCycle.nframes ≤ 1024
    ∧ (jack_process overrunCycle).rbHalf.written = 0
    ∧ ¬ (|(jack_process overrunCycle).rbHalf.written - overrunCycle.nframes * 8| ≤ 8)
    ∧ emptyCycle.nframes ≤ 1024
    ∧ (jack_process emptyCycle).rbHalf.written = 100
    ∧ ¬ (|(jack_process emptyCycle).rbHalf.written - emptyCycle.nframes * 8| ≤ 8) := by
  decide

/-- C10, amended: for every processed host cycle with `1 ≤ nframes ≤ 1024` (every RB
occupancy, every average, free space below `2^31`), if the cycle is not an overrun
(`nr + 1 ≤ free space`, `nr = nframes * 8`) the byte count handed to the ring is
`nr - 8`, `nr` or `nr + 8` and the number of bytes written to RB differs from `nr` by
at most 8; if it is an overrun nothing is written. -/
theorem jack_process_rb_written (i : ProcIn) (hrun : i.running ≠ 0)
    (hn1 : 1 ≤ i.nframes) (hn : i.nframes ≤ 1024)
    (hws0 : 0 ≤ i.rbWriteSpace) (hws : i.rbWriteSpace < 2147483648) :
    (i.nframes * 8 + 1 ≤ i.rbWriteSpace →
        (jack_process i).rbHalf.overrun = false
        ∧ ((jack_process i).rbHalf.requested = i.nframes * 8 - 8
            ∨ (jack_process i).rbHalf.requested = i.nframes * 8
            ∨ (jack_process i).rbHalf.requested = i.nframes * 8 + 8)
        ∧ |(jack_process i).rbHalf.written - i.nframes * 8| ≤ 8)
    ∧ (i.rbWriteSpace < i.nframes * 8 + 1 →
        (jack_process i).rbHalf.overrun = true ∧ (jack_process i).rbHalf.written = 0) := by
  rw [jack_process_running i hrun hn]
  exact jackRbHalf_written i hn1 hn hws0 hws

/-- Witness for C10: a cycle of 64 frames (512 bytes) with 26623 bytes free writes 512
bytes. -/
theorem jack_process_rb_written_witness :
    steadyCycle.running ≠ 0 ∧ 1 ≤ steadyCycle.nframes ∧ steadyCycle.nframes ≤ 1024
    ∧ 0 ≤ steadyCycle.rbWriteSpace ∧ steadyCycle.rbWriteSpace < 2147483648
    ∧ steadyCycle.nframes * 8 + 1 ≤ steadyCycle.rbWriteSpace
    ∧ (jack_process steadyCycle).rbHalf.written = 512
    ∧ |(jack_process steadyCycle).rbHalf.written - steadyCycle.nframes * 8| ≤ 8 :=
  ⟨by decide, by decide, by decide, by decide, by decide, by decide, by decide,
    ((jack_process_rb_written steadyCycle (by decide) (by decide) (by decide) (by decide)
      (by decide)).1 (by decide)).2.2⟩

/-- C11, the code at the failing input: in a cycle of 1024 frames (`nr = 8192`) that is
not an overrun (8199 bytes free, `nr + 1 ≤ 8199`) the updated RB average is 1477, below
the low edge `rbtlow = 5760`, and the byte count chosen is `nr + 8 = 8200`; but the ring
has room for 8199 bytes only, so 8199 bytes are written, not `nr + 8`, and the callback
returns 1. -/
theorem jack_process_deadband_gap :
    gapLowCycle.running ≠ 0 ∧ gapLowCycle.nframes ≤ 1024
    ∧ gapLowCycle.nframes * 8 + 1 ≤ gapLowCycle.rbWriteSpace
    ∧ (jack_process gapLowCycle).rbHalf.overrun = false
    ∧ (jack_process gapLowCycle).rbHalf.rbavg = 1477
    ∧ (jack_process gapLowCycle).rbHalf.rbavg < rbtlow
    ∧ (jack_process gapLowCycle).rbHalf.requested = gapLowCycle.nframes * 8 + 8
    ∧ (jack_process gapLowCycle).rbHalf.written = 8199
    ∧ (jack_process gapLowCycle).rbHalf.written ≠ gapLowCycle.nframes * 8 + 8
    ∧ (jack_process gapLowCycle).ret = 1 := by
  decide

/-- C12: for every `nframes > 1024` (1025 in particular) `jack_process` refuses the
cycle: it returns 0, reads nothing from IB, writes nothing to RB, and leaves both
averages and the four drop/add counters as they were; for every `nframes ≤ 1024`
(1024 in particular) a running service processes the cycle. -/
theorem jack_process_period_limit (i : ProcIn) :
    (i.nframes > 1024 →
        (jack_process i).ret = 0
        ∧ (jack_process i).processed = false
        ∧ (jack_process i).ibHalf.bytesRead = []
        ∧ (jack_process i).ibHalf.ib = i.ib
        ∧ (jack_process i).ibHalf.ibavg = IbAvgUpdate.keep
        ∧ (jack_process i).rbHalf.requested = 0
        ∧ (jack_process i).rbHalf.written = 0
        ∧ (jack_process i).rbHalf.rbavg = i.rbavg
        ∧ (jack_process i).ibHalf.ibdrop = i.ibdrop
        ∧ (jack_process i).ibHalf.ibadd = i.ibadd
        ∧ (jack_process i).rbHalf.rbdrop = i.rbdrop
        ∧ (jack_process i).rbHalf.rbadd = i.rbadd)
    ∧ (i.nframes ≤ 1024 → i.running ≠ 0 → (jack_process i).processed = true) := by
  constructor
  · intro h
    unfold jack_process
    split_ifs <;> simp
  · intro h hrun
    rw [jack_process_running i hrun h]

/-- Witness for C12: a cycle of 1025 frames is refused and a cycle of 1024 frames is
processed. -/
theorem jack_process_period_limit_witness :
    oversizeCycle.nframes > 1024
    ∧ (jack_process oversizeCycle).ret = 0
    ∧ (jack_process oversizeCycle).processed = false
    ∧ (jack_process oversizeCycle).rbHalf.written = 0
    ∧ fullSizeCycle.nframes ≤ 1024 ∧ fullSizeCycle.running ≠ 0
    ∧ (jack_process fullSizeCycle).processed = true :=
  ⟨by decide,
    ((jack_process_period_limit oversizeCycle).1 (by decide)).1,
    ((jack_process_period_limit oversizeCycle).1 (by decide)).2.1,
    ((jack_process_period_limit oversizeCycle).1 (by decide)).2.2.2.2.2.2.1,
    by decide, by decide,
    (jack_process_period_limit fullSizeCycle).2 (by decide) (by decide)⟩

/-- C13: for every processed cycle with `2 ≤ nframes ≤ 1024` and `nb ≥ nr`, output port
`ch < 10` holds at every index `k` below `nframes` and below the number of whole frames
read the channel-`ch` sample of frame `k` of the bytes dequeued from IB.  When fewer
than `nframes` frames were read, which is the case `sd = -1`, exactly `nframes - 1`
frames were read, index `nframes - 1` of every port holds the sample of the last frame
read (frame `nframes - 2`), and `ibadd` rises by 10; otherwise `ibadd` is unchanged.
Nothing else of the port buffers is written, so every port receives exactly `nframes`
samples. -/
theorem jack_process_deinterleave (i : ProcIn) (ab : Scratch) (out : Ports)
    (hrun : i.running ≠ 0) (hn2 : 2 ≤ i.nframes) (hn : i.nframes ≤ 1024)
    (hib : (i.ib.length : Int) < 2147483648) (hnb : i.nframes * 40 ≤ (i.ib.length : Int))
    (hadd0 : -9223372036854775808 ≤ i.ibadd) (hadd : i.ibadd + 10 < 9223372036854775808) :
    (∀ ch k : Nat, ch < 10 → (k : Int) < i.nframes →
        k < (jack_process i).ibHalf.bytesRead.length / 40 →
        jack_process_ports i ab out ch k
          = floatAt (jack_process i).ibHalf.bytesRead (10 * k + ch))
    ∧ ((jack_process i).ibHalf.bytesRead.length / 40 < i.nframes.toNat →
        (jack_process i).ibHalf.sd = -1
        ∧ (jack_process i).ibHalf.bytesRead.length = 40 * (i.nframes.toNat - 1)
        ∧ (∀ ch : Nat, ch < 10 →
            jack_process_ports i ab out ch (i.nframes.toNat - 1)
              = floatAt (jack_process i).ibHalf.bytesRead (10 * (i.nframes.toNat - 2) + ch))
        ∧ (jack_process i).ibHalf.ibadd = i.ibadd + 10)
    ∧ (i.nframes.toNat ≤ (jack_process i).ibHalf.bytesRead.length / 40 →
        (jack_process i).ibHalf.ibadd = i.ibadd)
    ∧ ((jack_process i).ibHalf.sd = -1 →
        (jack_process i).ibHalf.bytesRead.length / 40 < i.nframes.toNat)
    ∧ (∀ ch k : Nat, ¬ (ch < 10 ∧ (k : Int) < i.nframes) →
        jack_process_ports i ab out ch k = out ch k) := by
  have hn0 : 0 ≤ i.nframes := by omega
  obtain ⟨n, hnn⟩ : ∃ n : Nat, i.nframes = (n : Int) := ⟨i.nframes.toNat, by omega⟩
  have hcases := ibNa_cases i hnb
  have hpos : 0 < ibNa i := by omega
  obtain ⟨hrd, hia⟩ := jackIbHalf_fields i hn0 hn hib hnb hpos
  have hports := jack_process_ports_eq i ab out hrun hn0 hn hib hnb hpos
  have hsd := jackIbHalf_sd i hn0 hn hib hnb
  rw [jack_process_running i hrun hn]
  dsimp only
  have hlen : (jackIbHalf i).bytesRead.length = (ibNa i).toNat := by
    rw [hrd, List.length_take]; omega
  have hnat : i.nframes.toNat = n := by omega
  rw [hlen, hnat, hports, hrd, hsd, hia, hnat]
  have hpab : toSizeT (ibNa i) / sample_size = ibNa i / 4 := by
    unfold toSizeT sample_size
    have : ibNa i % 18446744073709551616 = ibNa i := by omega
    rw [this]
  rw [hpab, hnn]
  rcases hcases with ⟨hg, hl, hna⟩ | ⟨hg, hl, hna⟩ | ⟨hg, hna1, hna2, hna3⟩
  · -- sd = -1
    rw [hg, hl, hna, hnn]
    have e1 : ((n : Int) * 40 - 40).toNat = 40 * (n - 1) := by omega
    have e2 : ((n : Int) * 40 - ((n : Int) * 40 - 40)).toNat = 40 := by omega
    have e3 : (((n : Int) * 40 - 40) / 4).toNat = 10 * (n - 1) := by omega
    have e4 : (n : Int) * 40 - 40 = 40 * (n : Int) - 40 := by ring
    have e5 : (n : Int) * 40 = 40 * (n : Int) := by ring
    have hl40 : (List.take (40 * (n - 1)) i.ib).length = 40 * (n - 1) := by
      rw [List.length_take]; omega
    rw [e1, e2, e3, e4, e5]
    have hp := ports_short ab out (List.take (40 * (n - 1)) i.ib) n 40 (by omega) (by omega)
      hl40 (by omega)
    have hfr : 40 * (n - 1) / 40 = n - 1 := by omega
    rw [hfr]
    have hdl := dupLoop_count 10 40 (40 * (n : Int) - 40) (40 * n) i.ibadd (by omega) (by omega)
      (by omega) (by push_cast; omega) hadd0 (by push_cast; omega)
    refine ⟨?_, ?_, ?_, ?_, ?_⟩
    · intro ch k hch hk hkf
      rw [hp ch k, if_pos ⟨hch, by omega⟩, if_pos hkf]
    · intro _
      refine ⟨by simp, rfl, ?_, ?_⟩
      · intro ch hch
        rw [hp ch (n - 1), if_pos ⟨hch, by omega⟩, if_neg (by omega)]
      · rw [hdl]; simp
    · intro h; omega
    · intro _; omega
    · intro ch k hnot
      rw [hp ch k, if_neg (by omega)]
  · -- sd = 0
    rw [hg, hl, hna, hnn]
    have e1 : ((n : Int) * 40).toNat = 40 * n := by omega
    have e5 : (n : Int) * 40 = 40 * (n : Int) := by ring
    have hl40 : 40 * n ≤ (List.take (40 * n) i.ib).length := by
      rw [List.length_take]; omega
    rw [e1, e5]
    have hp := ports_full ab out (List.take (40 * n) i.ib) n (40 * (n : Int) - 40 * n).toNat
      (40 * (n : Int) / 4).toNat (40 * n) hl40 (by omega)
    have hfr : 40 * n / 40 = n := by omega
    rw [hfr]
    refine ⟨?_, ?_, ?_, ?_, ?_⟩
    · intro ch k hch hk hkf
      rw [hp ch k, if_pos ⟨hch, by omega⟩]
    · intro h; omega
    · intro _
      rw [dupLoop_stop _ _ _ _ (by omega)]
    · intro h; simp at h
    · intro ch k hnot
      rw [hp ch k, if_neg (by omega)]
  · -- sd = 1
    rw [hg]
    rw [hnn] at hna1 hna2
    have e5 : (n : Int) * 40 = 40 * (n : Int) := by ring
    have hl40 : 40 * n ≤ (List.take (ibNa i).toNat i.ib).length := by
      rw [List.length_take]; omega
    rw [e5]
    have hp := ports_full ab out (List.take (ibNa i).toNat i.ib) n
      (40 * (n : Int) - ibNa i).toNat (ibNa i / 4).toNat (ibNa i) hl40 (by omega)
    have hfr : n ≤ (ibNa i).toNat / 40 := by omega
    refine ⟨?_, ?_, ?_, ?_, ?_⟩
    · intro ch k hch hk hkf
      rw [hp ch k, if_pos ⟨hch, by omega⟩]
    · intro h; omega
    · intro _
      rw [dupLoop_stop _ _ _ _ (by omega)]
    · intro h; simp at h
    · intro ch k hnot
      rw [hp ch k, if_neg (by omega)]

/-- Witness for C13: a cycle of 2 frames with the average below the low edge reads
frame 0 (bytes 0..39); index 1 of port 3 holds bytes 12..15, the channel-3 sample of
frame 0, and `ibadd` becomes 10. -/
theorem jack_process_deinterleave_witness :
    shortCycle.running ≠ 0 ∧ 2 ≤ shortCycle.nframes ∧ shortCycle.nframes ≤ 1024
    ∧ shortCycle.nframes * 40 ≤ (shortCycle.ib.length : Int)
    ∧ (jack_process shortCycle).ibHalf.bytesRead.length / 40 < shortCycle.nframes.toNat
    ∧ floatAt (jack_process shortCycle).ibHalf.bytesRead 3 = [12, 13, 14, 15]
    ∧ jack_process_ports shortCycle (fun _ => 0) (fun _ _ => []) 3 (shortCycle.nframes.toNat - 1)
        = floatAt (jack_process shortCycle).ibHalf.bytesRead
            (10 * (shortCycle.nframes.toNat - 2) + 3)
    ∧ (jack_process shortCycle).ibHalf.ibadd = shortCycle.ibadd + 10 := by
  have h := jack_process_deinterleave shortCycle (fun _ => 0) (fun _ _ => []) (by decide)
    (by decide) (by decide) (by decide) (by decide) (by decide) (by decide)
  have hshort : (jack_process shortCycle).ibHalf.bytesRead.length / 40
      < shortCycle.nframes.toNat := by decide
  obtain ⟨-, h3, h4, h5⟩ := h.2.1 hshort
  exact ⟨by decide, by decide, by decide, by decide, hshort, by decide, h4 3 (by decide), h5⟩

/-- C14 as stated fails: with the prior average 299, 300 bytes in RB and no elapsed
frames the updated average is 300, while `avg + (sample - avg) / 300` is 299 in integer
arithmetic and `299 + 1/300` in exact arithmetic. -/
theorem jack_process_rb_ewma_counterexample :
    (jack_process ewmaCycle).rbHalf.overrun = false
    ∧ (jack_process ewmaCycle).rbHalf.rbavg = 300
    ∧ (jack_process ewmaCycle).rbHalf.rbavg
        ≠ ewmaCycle.rbavg
          + Int.tdiv (ewmaCycle.rbReadSpace + 8 * ewmaCycle.rbElapsed - ewmaCycle.rbavg) 300
    ∧ (((jack_process ewmaCycle).rbHalf.rbavg : Int) : ℚ)
        ≠ (ewmaCycle.rbavg : ℚ)
          + (((ewmaCycle.rbReadSpace + 8 * ewmaCycle.rbElapsed - ewmaCycle.rbavg : Int) : ℚ)
              / 300) := by
  have h : (jack_process ewmaCycle).rbHalf.rbavg = 300 := by decide
  refine ⟨by decide, h, by decide, ?_⟩
  rw [h]
  simp only [ewmaCycle]
  norm_num

/-- C14, amended: for every processed cycle that is not an overrun, with prior average
`avg` (a `long` of magnitude at most `2^62`), RB occupancy `nb` and `e` elapsed frames,
the average after the update is `avg + sample/300 - avg/300` with `sample = nb + 8*e`,
the two quotients taken separately in integer arithmetic, each rounded toward zero;
this is within 1 of `avg + (sample - avg)/300`. -/
theorem jack_process_rb_ewma (i : ProcIn) (hrun : i.running ≠ 0)
    (hn0 : 0 ≤ i.nframes) (hn : i.nframes ≤ 1024)
    (hws0 : 0 ≤ i.rbWriteSpace) (hws : i.rbWriteSpace < 2147483648)
    (hfit : i.nframes * 8 + 1 ≤ i.rbWriteSpace)
    (hnb0 : 0 ≤ i.rbReadSpace) (hnb : i.rbReadSpace < 2147483648)
    (he0 : 0 ≤ i.rbElapsed) (he : i.rbElapsed < 4294967296)
    (ha0 : -4611686018427387904 ≤ i.rbavg) (ha : i.rbavg < 4611686018427387904) :
    (jack_process i).rbHalf.rbavg
      = i.rbavg + (i.rbReadSpace + 8 * i.rbElapsed) / 300 - Int.tdiv i.rbavg 300
    ∧ |(jack_process i).rbHalf.rbavg
        - (i.rbavg + Int.tdiv (i.rbReadSpace + 8 * i.rbElapsed - i.rbavg) 300)| ≤ 1 := by
  rw [jack_process_running i hrun hn]
  dsimp only
  have h := jackRbHalf_rbavg i hn0 hn hws0 hws hfit hnb0 hnb he0 he ha0 ha
  refine ⟨h, ?_⟩
  rw [h, tdiv_300 i.rbavg, tdiv_300 (i.rbReadSpace + 8 * i.rbElapsed - i.rbavg), abs_le]
  split_ifs <;> constructor <;> omega

/-- Witness for C14: with the prior average 6144, 6144 bytes in RB and no elapsed frames
the average stays 6144. -/
theorem jack_process_rb_ewma_witness :
    steadyCycle.running ≠ 0 ∧ steadyCycle.nframes * 8 + 1 ≤ steadyCycle.rbWriteSpace
    ∧ (jack_process steadyCycle).rbHalf.rbavg = 6144
    ∧ (jack_process steadyCycle).rbHalf.rbavg
      = steadyCycle.rbavg + (steadyCycle.rbReadSpace + 8 * steadyCycle.rbElapsed) / 300
          - Int.tdiv steadyCycle.rbavg 300 :=
  ⟨by decide, by decide, by decide,
    (jack_process_rb_ewma steadyCycle (by decide) (by decide) (by decide) (by decide)
      (by decide) (by decide) (by decide) (by decide) (by decide) (by decide) (by decide)
      (by decide)).1⟩

theorem lateCycle_length : lateCycle.ib.length = 2560 := by
  simp only [lateCycle, List.length_replicate]

/-- C15, the code at the failing input: in a cycle of 64 frames with exactly
`nr = 2560` bytes in IB and one elapsed frame the signed quantity `nb - nr - 40*e` is
`-40`, but the source evaluates it in `size_t`, where it is `2^64 - 40`, and the term it
folds into `ibavg` is `(2^64 - 40) / 300 = 61489146912365171`, not `-40 / 300`. -/
theorem jack_process_ib_sample_wraps :
    lateCycle.nframes * 40 ≤ (lateCycle.ib.length : Int)
    ∧ (lateCycle.ib.length : Int) - lateCycle.nframes * 40 - 40 * lateCycle.ibElapsed = -40
    ∧ (jack_process lateCycle).ibHalf.ibavg = IbAvgUpdate.ewma 61489146912365171
    ∧ (61489146912365171 : Int) = (18446744073709551616 - 40) / 300
    ∧ Int.tdiv (-40) 300 = 0 := by
  have h : jack_process lateCycle =
      { ret := (jackRbHalf lateCycle).ret, processed := true, ibHalf := jackIbHalf lateCycle,
        rbHalf := jackRbHalf lateCycle } := jack_process_running lateCycle (by decide) (by decide)
  rw [h, lateCycle_length]
  refine ⟨by decide, by decide, ?_, by decide, by decide⟩
  simp only [jackIbHalf, jack_ringbuffer_read_space, lateCycle_length]
  decide

end Alesis
